import Mathlib

/-!
Verification of the MIPS-like instruction-level simulator
(crates `processer-v1` and `processer-v2`).

This file contains a shallow embedding of the simulator's core:
the instruction decoder (`src/processer-v1/src/instructions.rs`),
the flat byte memory (`src/processer-v1/src/memory.rs`),
the 4-way set-associative write-back cache (`src/processer-v2/src/cache.rs`)
and the processor execution engine (`src/processer-v2/src/processor.rs`).

Machine integers are modelled as `Nat` (or `Int` for signed views) with
explicit `% 2^w` where the Rust code uses wrapping arithmetic; byte stores
are modelled as total functions `Nat → Nat` together with an explicit size,
mirroring the bounds checks of the source; fallible operations return
`Except MemoryError`/`Except ProcessorError`.  Loops whose trip count is
bounded by the data (cache-line transfers, the null-terminated string
printer, `run`) are written as structural recursions; `run`, which can
genuinely diverge, is modelled by the fuel-indexed `runLoop` where `none`
means "still looping after the given number of iterations".
-/

/-- Pointwise update of a total function, used to model in-place array and
byte-store mutation (`data[i] = v`). -/
def updf {α : Type} (f : Nat → α) (i : Nat) (v : α) : Nat → α :=
  fun j => if j = i then v else f j

/-- Reinterpret the low 16 bits of a `Nat` as a signed two's-complement
16-bit integer (the Rust cast `as i16`). -/
def toI16 (x : Nat) : Int :=
  if x % 2 ^ 16 < 2 ^ 15 then (x % 2 ^ 16 : Nat) else (x % 2 ^ 16 : Nat) - 2 ^ 16

/-- Reinterpret a `Nat` below `2^32` as a signed two's-complement 32-bit
integer (the Rust cast `as i32`). -/
def toI32 (x : Nat) : Int :=
  if x % 2 ^ 32 < 2 ^ 31 then (x % 2 ^ 32 : Nat) else (x % 2 ^ 32 : Nat) - 2 ^ 32

/-- Two's-complement reinterpretation of an integer as an unsigned 32-bit
value (the Rust cast `as u32`, and the value produced by `wrapping` i32
arithmetic followed by that cast). -/
def u32ofInt (x : Int) : Nat :=
  (x % 2 ^ 32).toNat

/-- `InstructionType` from `src/processer-v1/src/instructions.rs`.
Registers are `u8` values (modelled as `Nat`), immediates are signed 16-bit
(modelled as `Int`), jump targets are 26-bit word indices (`Nat`). -/
inductive InstructionType where
  | Add (rd rs rt : Nat)
  | Sub (rd rs rt : Nat)
  | And (rd rs rt : Nat)
  | Or (rd rs rt : Nat)
  | Slt (rd rs rt : Nat)
  | Sll (rd rt shamt : Nat)
  | Srl (rd rt shamt : Nat)
  | Jr (rs : Nat)
  | Addi (rt rs : Nat) (imm : Int)
  | Lw (rt rs : Nat) (imm : Int)
  | Sw (rt rs : Nat) (imm : Int)
  | Beq (rs rt : Nat) (imm : Int)
  | Bne (rs rt : Nat) (imm : Int)
  | Slti (rt rs : Nat) (imm : Int)
  | J (addr : Nat)
  | Jal (addr : Nat)
  | Syscall
  | Invalid
deriving DecidableEq, Repr

/-- `InstructionType::decode` from `src/processer-v1/src/instructions.rs`.
Field extraction mirrors the source:
`opcode = (instruction >> 26) as u8`; `rs = ((instruction >> 21) & 0x1F) as u8`;
`rt = ((instruction >> 16) & 0x1F) as u8`; `rd = ((instruction >> 11) & 0x1F) as u8`;
`shamt = ((instruction >> 6) & 0x1F) as u8`; `funct = (instruction & 0x3F) as u8`;
`imm = (instruction & 0xFFFF) as i16`; `addr = instruction & 0x3FFFFFF`.
The Rust `match` over disjoint integer literals is written as a
first-match chain of equality tests. -/
def InstructionType.decode (instruction : Nat) : InstructionType :=
  let opcode := instruction / 2 ^ 26 % 2 ^ 8
  let rs := instruction / 2 ^ 21 % 32
  let rt := instruction / 2 ^ 16 % 32
  let rd := instruction / 2 ^ 11 % 32
  let shamt := instruction / 2 ^ 6 % 32
  let funct := instruction % 64
  let imm := toI16 (instruction % 2 ^ 16)
  let addr := instruction % 2 ^ 26
  if opcode = 0x00 then
    if funct = 0x20 then .Add rd rs rt
    else if funct = 0x22 then .Sub rd rs rt
    else if funct = 0x24 then .And rd rs rt
    else if funct = 0x25 then .Or rd rs rt
    else if funct = 0x2A then .Slt rd rs rt
    else if funct = 0x00 then .Sll rd rt shamt
    else if funct = 0x02 then .Srl rd rt shamt
    else if funct = 0x08 then .Jr rs
    else if funct = 0x0C then .Syscall
    else .Invalid
  else if opcode = 0x08 then .Addi rt rs imm
  else if opcode = 0x23 then .Lw rt rs imm
  else if opcode = 0x2B then .Sw rt rs imm
  else if opcode = 0x04 then .Beq rs rt imm
  else if opcode = 0x05 then .Bne rs rt imm
  else if opcode = 0x0A then .Slti rt rs imm
  else if opcode = 0x02 then .J addr
  else if opcode = 0x03 then .Jal addr
  else .Invalid

/-- Decode as described by the specification's own words (spec section 4.1):
opcode = bits 31-26, rs = bits 25-21, rt = bits 20-16, rd = bits 15-11,
shamt = bits 10-6, funct = bits 5-0, immediate = bits 15-0 as signed 16-bit,
target = bits 25-0, with the exact dispatch table of the spec.  This
definition exists to be compared against `InstructionType.decode` above. -/
def decodeSpec (word : Nat) : InstructionType :=
  let opcode := word / 2 ^ 26 % 2 ^ 6
  let rs := word / 2 ^ 21 % 2 ^ 5
  let rt := word / 2 ^ 16 % 2 ^ 5
  let rd := word / 2 ^ 11 % 2 ^ 5
  let shamt := word / 2 ^ 6 % 2 ^ 5
  let funct := word % 2 ^ 6
  let imm := toI16 (word % 2 ^ 16)
  let target := word % 2 ^ 26
  if opcode = 0x00 then
    if funct = 0x20 then .Add rd rs rt
    else if funct = 0x22 then .Sub rd rs rt
    else if funct = 0x24 then .And rd rs rt
    else if funct = 0x25 then .Or rd rs rt
    else if funct = 0x2A then .Slt rd rs rt
    else if funct = 0x00 then .Sll rd rt shamt
    else if funct = 0x02 then .Srl rd rt shamt
    else if funct = 0x08 then .Jr rs
    else if funct = 0x0C then .Syscall
    else .Invalid
  else if opcode = 0x08 then .Addi rt rs imm
  else if opcode = 0x23 then .Lw rt rs imm
  else if opcode = 0x2B then .Sw rt rs imm
  else if opcode = 0x04 then .Beq rs rt imm
  else if opcode = 0x05 then .Bne rs rt imm
  else if opcode = 0x0A then .Slti rt rs imm
  else if opcode = 0x02 then .J target
  else if opcode = 0x03 then .Jal target
  else .Invalid

/-- `MemoryError` from `src/processer-v1/src/memory.rs`. -/
inductive MemoryError where
  | AddressOutOfRange (address : Nat)
deriving DecidableEq, Repr

/-- `Memory` from `src/processer-v1/src/memory.rs`: a bounds-checked byte
store.  The `Vec<u8>` is modelled as its length together with a total
function giving the byte at each index. -/
structure Memory where
  size : Nat
  data : Nat → Nat

/-- `Memory::with_size`: a zero-initialized byte array. -/
def Memory.with_size (size : Nat) : Memory :=
  { size := size, data := fun _ => 0 }

/-- `Memory::read_byte`. -/
def Memory.read_byte (m : Memory) (address : Nat) : Except MemoryError Nat :=
  if address ≥ m.size then .error (.AddressOutOfRange address)
  else .ok (m.data address)

/-- `Memory::write_byte`.  The stored value is a `u8` in the source, hence
the `% 256` at this boundary. -/
def Memory.write_byte (m : Memory) (address : Nat) (value : Nat) :
    Except MemoryError Memory :=
  if address ≥ m.size then .error (.AddressOutOfRange address)
  else .ok { m with data := updf m.data address (value % 256) }

/-- `Memory::write_word` (little-endian): four byte stores of
`value & 0xFF`, `(value >> 8) & 0xFF`, `(value >> 16) & 0xFF`,
`(value >> 24) & 0xFF`, after the `address + 3 < len` bounds check. -/
def Memory.write_word (m : Memory) (address value : Nat) :
    Except MemoryError Memory :=
  if address + 3 ≥ m.size then .error (.AddressOutOfRange address)
  else
    let d0 := updf m.data address (value % 256)
    let d1 := updf d0 (address + 1) (value / 2 ^ 8 % 256)
    let d2 := updf d1 (address + 2) (value / 2 ^ 16 % 256)
    let d3 := updf d2 (address + 3) (value / 2 ^ 24 % 256)
    .ok { m with data := d3 }

/-- `Memory::read_word` (little-endian): the source computes
`b0 | (b1 << 8) | (b2 << 16) | (b3 << 24)`. -/
def Memory.read_word (m : Memory) (address : Nat) : Except MemoryError Nat :=
  if address + 3 ≥ m.size then .error (.AddressOutOfRange address)
  else .ok (m.data address |||
    (m.data (address + 1) <<< 8) |||
    (m.data (address + 2) <<< 16) |||
    (m.data (address + 3) <<< 24))

/-- `Memory::write_instruction` is `write_word`. -/
def Memory.write_instruction (m : Memory) (address instruction : Nat) :
    Except MemoryError Memory :=
  m.write_word address instruction

/-- `CacheLine` from `src/processer-v2/src/cache.rs`: valid bit, dirty bit,
tag, 32 data bytes (a total function restricted to offsets `0..31`), and
the LRU access timestamp. -/
structure CacheLine where
  valid : Bool
  dirty : Bool
  tag : Nat
  data : Nat → Nat
  access_time : Nat

/-- `CacheLine::new`. -/
def CacheLine.new : CacheLine :=
  { valid := false, dirty := false, tag := 0, data := fun _ => 0, access_time := 0 }

/-- `CacheSet`: exactly 4 `CacheLine`s (ways `0..3`), modelled as a total
function on way indices. -/
structure CacheSet where
  lines : Nat → CacheLine

/-- `CacheSet::new`. -/
def CacheSet.new : CacheSet :=
  { lines := fun _ => CacheLine.new }

/-- `CacheStats` from `src/processer-v2/src/cache.rs`. -/
structure CacheStats where
  hits : Nat
  misses : Nat
  writebacks : Nat
deriving DecidableEq, Repr

/-- `CacheStats::default()`. -/
def CacheStats.default : CacheStats :=
  { hits := 0, misses := 0, writebacks := 0 }

/-- `Cache`: 64 `CacheSet`s (modelled as a total function on set indices),
statistics and the global access-time counter. -/
structure Cache where
  sets : Nat → CacheSet
  stats : CacheStats
  access_counter : Nat

/-- `Cache::new`. -/
def Cache.new : Cache :=
  { sets := fun _ => CacheSet.new, stats := CacheStats.default, access_counter := 0 }

/-- `Cache::get_set_index`: `(address / CACHE_LINE_SIZE) % CACHE_SETS`. -/
def get_set_index (address : Nat) : Nat := address / 32 % 64

/-- `Cache::get_tag`: `(address / CACHE_LINE_SIZE) / CACHE_SETS`. -/
def get_tag (address : Nat) : Nat := address / 32 / 64

/-- `Cache::get_offset`: `address % CACHE_LINE_SIZE`. -/
def get_offset (address : Nat) : Nat := address % 32

/-- One step of `Cache::find_line`'s loop over the ways of a set: the first
way whose line is valid with a matching tag is returned, with its access
time restamped from the global counter (which is then incremented). -/
def findLineFrom (c : Cache) (set_index tag : Nat) : List Nat → Option (Nat × Cache)
  | [] => none
  | i :: rest =>
    let line := (c.sets set_index).lines i
    if line.valid = true ∧ line.tag = tag then
      some (i, { c with
        sets := updf c.sets set_index
          { lines := updf (c.sets set_index).lines i
              { line with access_time := c.access_counter } },
        access_counter := c.access_counter + 1 })
    else findLineFrom c set_index tag rest

/-- `Cache::find_line`: scan ways `0..3` in order. -/
def Cache.find_line (c : Cache) (set_index tag : Nat) : Option (Nat × Cache) :=
  findLineFrom c set_index tag [0, 1, 2, 3]

/-- One step of `Cache::select_lru_line`'s loop: an invalid line is taken
immediately; otherwise the running least access time (strict `<`, so ties
keep the earlier way) is tracked. -/
def selectLruFrom (c : Cache) (set_index : Nat) :
    List Nat → Nat → Nat → Nat
  | [], lru_index, _ => lru_index
  | i :: rest, lru_index, oldest_time =>
    let line := (c.sets set_index).lines i
    if line.valid = false then i
    else if line.access_time < oldest_time then
      selectLruFrom c set_index rest i line.access_time
    else selectLruFrom c set_index rest lru_index oldest_time

/-- `Cache::select_lru_line`: start from way 0 and its access time, scan
all ways `0..3`. -/
def Cache.select_lru_line (c : Cache) (set_index : Nat) : Nat :=
  selectLruFrom c set_index [0, 1, 2, 3] 0 ((c.sets set_index).lines 0).access_time

/-- The loop of `Cache::writeback_line` / `Cache::load_line`: write `n`
bytes `d i, d (i+1), ...` to memory at `base + i, base + i + 1, ...`. -/
def writebackBytes (m : Memory) (base : Nat) (d : Nat → Nat) :
    Nat → Nat → Except MemoryError Memory
  | _, 0 => .ok m
  | i, n + 1 =>
    match m.write_byte (base + i) (d i) with
    | .error e => .error e
    | .ok m' => writebackBytes m' base d (i + 1) n

/-- `Cache::writeback_line`: a non-dirty line is skipped; otherwise the 32
data bytes are written to memory at the reconstructed base address
`(tag * CACHE_SETS + set_index) * CACHE_LINE_SIZE` and the writeback
counter is incremented. -/
def Cache.writeback_line (c : Cache) (m : Memory) (set_index way_index : Nat) :
    Except MemoryError (Cache × Memory) :=
  let line := (c.sets set_index).lines way_index
  if line.dirty = false then .ok (c, m)
  else
    let base_address := (line.tag * 64 + set_index) * 32
    match writebackBytes m base_address line.data 0 32 with
    | .error e => .error e
    | .ok m' =>
      .ok ({ c with stats := { c.stats with writebacks := c.stats.writebacks + 1 } }, m')

/-- The loop of `Cache::load_line`: read `n` bytes from memory at
`base + i, ...` into the data array at indices `i, ...`. -/
def loadBytes (m : Memory) (base : Nat) (d : Nat → Nat) :
    Nat → Nat → Except MemoryError (Nat → Nat)
  | _, 0 => .ok d
  | i, n + 1 =>
    match m.read_byte (base + i) with
    | .error e => .error e
    | .ok b => loadBytes m base (updf d i b) (i + 1) n

/-- `Cache::load_line`: fill the line's 32 bytes from memory at the base
address of `(tag, set_index)`, then mark it valid, clean, retagged, and
stamp its access time from the global counter. -/
def Cache.load_line (c : Cache) (m : Memory) (set_index way_index tag : Nat) :
    Except MemoryError Cache :=
  let base_address := (tag * 64 + set_index) * 32
  let line := (c.sets set_index).lines way_index
  match loadBytes m base_address line.data 0 32 with
  | .error e => .error e
  | .ok d =>
    .ok { c with
      sets := updf c.sets set_index
        { lines := updf (c.sets set_index).lines way_index
            { valid := true, dirty := false, tag := tag, data := d,
              access_time := c.access_counter } },
      access_counter := c.access_counter + 1 }

/-- The cache with one more counted miss (the first mutation on the miss
path of `read_byte`/`write_byte`). -/
def missCounted (c : Cache) : Cache :=
  { c with stats := { c.stats with misses := c.stats.misses + 1 } }

/-- The cache produced by the allocation phase of a `write_byte` miss:
the victim way is overwritten with a valid, dirty line holding the new
tag, the victim's stale data with only the addressed byte replaced, and a
fresh access stamp. -/
def allocWrite (c₂ : Cache) (si w tg off v : Nat) : Cache :=
  let line := (c₂.sets si).lines w
  { c₂ with
    sets := updf c₂.sets si
      { lines := updf (c₂.sets si).lines w
          { valid := true, dirty := true, tag := tg,
            data := updf line.data off v,
            access_time := c₂.access_counter } },
    access_counter := c₂.access_counter + 1 }

/-- `Cache::read_byte`.  Hit: restamp, count a hit, return the cached byte.
Miss: count a miss, pick the LRU victim, write it back if valid and dirty,
load the new line from memory, return the requested byte. -/
def Cache.read_byte (c : Cache) (m : Memory) (address : Nat) :
    Except MemoryError (Nat × Cache × Memory) :=
  let set_index := get_set_index address
  let tag := get_tag address
  let offset := get_offset address
  match c.find_line set_index tag with
  | some (way_index, c₁) =>
    let c₂ := { c₁ with stats := { c₁.stats with hits := c₁.stats.hits + 1 } }
    .ok (((c₂.sets set_index).lines way_index).data offset, c₂, m)
  | none =>
    let c₁ := missCounted c
    let way_index := c₁.select_lru_line set_index
    let victim := (c₁.sets set_index).lines way_index
    match (if victim.valid = true ∧ victim.dirty = true
           then c₁.writeback_line m set_index way_index
           else .ok (c₁, m)) with
    | .error e => .error e
    | .ok (c₂, m₂) =>
      match c₂.load_line m₂ set_index way_index tag with
      | .error e => .error e
      | .ok c₃ => .ok (((c₃.sets set_index).lines way_index).data offset, c₃, m₂)

/-- `Cache::write_byte`.  Hit: mutate the byte, set dirty, count a hit.
Miss: count a miss, pick the LRU victim, write it back if valid and dirty,
then allocate the line valid+dirty with the new tag and set only the
written byte — the other 31 bytes are not reloaded from memory. -/
def Cache.write_byte (c : Cache) (m : Memory) (address value : Nat) :
    Except MemoryError (Cache × Memory) :=
  let set_index := get_set_index address
  let tag := get_tag address
  let offset := get_offset address
  match c.find_line set_index tag with
  | some (way_index, c₁) =>
    let c₂ := { c₁ with stats := { c₁.stats with hits := c₁.stats.hits + 1 } }
    let line := (c₂.sets set_index).lines way_index
    .ok ({ c₂ with
      sets := updf c₂.sets set_index
        { lines := updf (c₂.sets set_index).lines way_index
            { line with data := updf line.data offset value, dirty := true } } }, m)
  | none =>
    let c₁ := missCounted c
    let way_index := c₁.select_lru_line set_index
    let victim := (c₁.sets set_index).lines way_index
    match (if victim.valid = true ∧ victim.dirty = true
           then c₁.writeback_line m set_index way_index
           else .ok (c₁, m)) with
    | .error e => .error e
    | .ok (c₂, m₂) => .ok (allocWrite c₂ set_index way_index tag offset value, m₂)

/-- `Cache::read_word`: bounds-check the 4-byte span against the memory
size, then four little-endian byte reads assembled as
`(b3 << 24) | (b2 << 16) | (b1 << 8) | b0`. -/
def Cache.read_word (c : Cache) (m : Memory) (address : Nat) :
    Except MemoryError (Nat × Cache × Memory) :=
  if address + 3 ≥ m.size then .error (.AddressOutOfRange address)
  else
    match c.read_byte m address with
    | .error e => .error e
    | .ok (b0, c₀, m₀) =>
      match c₀.read_byte m₀ (address + 1) with
      | .error e => .error e
      | .ok (b1, c₁, m₁) =>
        match c₁.read_byte m₁ (address + 2) with
        | .error e => .error e
        | .ok (b2, c₂, m₂) =>
          match c₂.read_byte m₂ (address + 3) with
          | .error e => .error e
          | .ok (b3, c₃, m₃) =>
            .ok ((b3 <<< 24) ||| (b2 <<< 16) ||| (b1 <<< 8) ||| b0, c₃, m₃)

/-- `Cache::write_word`: bounds-check the 4-byte span, then four
little-endian byte writes. -/
def Cache.write_word (c : Cache) (m : Memory) (address value : Nat) :
    Except MemoryError (Cache × Memory) :=
  if address + 3 ≥ m.size then .error (.AddressOutOfRange address)
  else
    match c.write_byte m address (value % 256) with
    | .error e => .error e
    | .ok (c₀, m₀) =>
      match c₀.write_byte m₀ (address + 1) (value / 2 ^ 8 % 256) with
      | .error e => .error e
      | .ok (c₁, m₁) =>
        match c₁.write_byte m₁ (address + 2) (value / 2 ^ 16 % 256) with
        | .error e => .error e
        | .ok (c₂, m₂) =>
          match c₂.write_byte m₂ (address + 3) (value / 2 ^ 24 % 256) with
          | .error e => .error e
          | .ok (c₃, m₃) => .ok (c₃, m₃)

/-- `ProcessorError` from `src/processer-v2/src/processor.rs`. -/
inductive ProcessorError where
  | MemoryError (e : MemoryError)
  | InvalidInstruction (instruction : Nat)
  | ProgramEnd
deriving DecidableEq, Repr

/-- `ProcessorStats` from `src/processer-v2/src/processor.rs`. -/
structure ProcessorStats where
  instructions_executed : Nat
  branches_taken : Nat
  loads_executed : Nat
  stores_executed : Nat
deriving DecidableEq, Repr

/-- `ProcessorStats::default()`. -/
def ProcessorStats.default : ProcessorStats :=
  { instructions_executed := 0, branches_taken := 0,
    loads_executed := 0, stores_executed := 0 }

/-- `PC_INITIAL`. -/
def PC_INITIAL : Nat := 0x00400000

/-- `SP_INITIAL`. -/
def SP_INITIAL : Nat := 0x7FFFFFFC

/-- `Processor` from `src/processer-v2/src/processor.rs`.  The 32-entry
register array is modelled as a total function on register indices. -/
structure Processor where
  registers : Nat → Nat
  pc : Nat
  hi : Nat
  lo : Nat
  memory : Memory
  cache : Cache
  stats : ProcessorStats

/-- `Processor::with_memory_size`: zeroed registers except `$sp`, PC at the
program start, fresh memory and cache. -/
def Processor.with_memory_size (memory_size : Nat) : Processor :=
  { registers := updf (fun _ => 0) 29 SP_INITIAL,
    pc := PC_INITIAL, hi := 0, lo := 0,
    memory := Memory.with_size memory_size,
    cache := Cache.new,
    stats := ProcessorStats.default }

/-- `Processor::get_register`: register 0 always reads 0. -/
def Processor.get_register (p : Processor) (reg : Nat) : Nat :=
  if reg = 0 then 0 else p.registers reg

/-- `Processor::set_register`: writes to register 0 are ignored. -/
def Processor.set_register (p : Processor) (reg value : Nat) : Processor :=
  if reg ≠ 0 then { p with registers := updf p.registers reg value } else p

/-- `Processor::fetch_instruction`: one word read through the cache at PC
(the source's debug printing has no semantic effect and is dropped). -/
def Processor.fetch_instruction (p : Processor) :
    Except MemoryError (Nat × Processor) :=
  match p.cache.read_word p.memory p.pc with
  | .error e => .error e
  | .ok (instruction, c', m') =>
    .ok (instruction, { p with cache := c', memory := m' })

/-- The loop of `Processor::print_string`: read bytes from memory (not
through the cache) until a zero byte, propagating memory faults.  The loop
advances the address by 1 each iteration, so `m.size + 1` iterations always
suffice; the fuel-exhausted branch reports the fault the next read would
hit and is unreachable when started with that fuel. -/
def printStringLoop (m : Memory) : Nat → Nat → Except MemoryError Unit
  | addr, 0 => .error (.AddressOutOfRange addr)
  | addr, fuel + 1 =>
    match m.read_byte addr with
    | .error e => .error e
    | .ok b => if b = 0 then .ok () else printStringLoop m (addr + 1) fuel

/-- `Processor::print_string` (the collected string itself is printed, an
effect outside the model; only the memory faults matter here). -/
def print_string (m : Memory) (address : Nat) : Except MemoryError Unit :=
  printStringLoop m address (m.size + 1)

/-- `Processor::execute_instruction`: decode and execute one instruction,
returning whether a control transfer occurred (`Ok(bool)`), or a fault.
Each arm mirrors the corresponding `match` arm in the source; `wrapping`
u32/i32 arithmetic is `% 2^32` / `u32ofInt`, and the source's console
output is dropped. -/
def Processor.execute_instruction (p : Processor) (instruction : Nat) :
    Except ProcessorError (Bool × Processor) :=
  match InstructionType.decode instruction with
  | .Add rd rs rt =>
    .ok (false, p.set_register rd ((p.get_register rs + p.get_register rt) % 2 ^ 32))
  | .Sub rd rs rt =>
    .ok (false, p.set_register rd
      (u32ofInt ((p.get_register rs : Int) - (p.get_register rt : Int))))
  | .And rd rs rt =>
    .ok (false, p.set_register rd (p.get_register rs &&& p.get_register rt))
  | .Or rd rs rt =>
    .ok (false, p.set_register rd (p.get_register rs ||| p.get_register rt))
  | .Slt rd rs rt =>
    .ok (false, p.set_register rd
      (if toI32 (p.get_register rs) < toI32 (p.get_register rt) then 1 else 0))
  | .Sll rd rt shamt =>
    .ok (false, p.set_register rd ((p.get_register rt <<< shamt) % 2 ^ 32))
  | .Srl rd rt shamt =>
    .ok (false, p.set_register rd (p.get_register rt >>> shamt))
  | .Jr rs =>
    .ok (true, { p with
      pc := p.get_register rs,
      stats := { p.stats with branches_taken := p.stats.branches_taken + 1 } })
  | .Addi rt rs imm =>
    .ok (false, p.set_register rt (u32ofInt (toI32 (p.get_register rs) + imm)))
  | .Lw rt rs imm =>
    let address := (p.get_register rs + u32ofInt imm) % 2 ^ 32
    match p.cache.read_word p.memory address with
    | .error e => .error (.MemoryError e)
    | .ok (value, c', m') =>
      let p₁ := { p with cache := c', memory := m' }
      let p₂ := p₁.set_register rt value
      .ok (false, { p₂ with
        stats := { p₂.stats with loads_executed := p₂.stats.loads_executed + 1 } })
  | .Sw rt rs imm =>
    let address := (p.get_register rs + u32ofInt imm) % 2 ^ 32
    match p.cache.write_word p.memory address (p.get_register rt) with
    | .error e => .error (.MemoryError e)
    | .ok (c', m') =>
      let p₁ := { p with cache := c', memory := m' }
      .ok (false, { p₁ with
        stats := { p₁.stats with stores_executed := p₁.stats.stores_executed + 1 } })
  | .Beq rs rt imm =>
    if p.get_register rs = p.get_register rt then
      .ok (true, { p with
        pc := (p.pc + u32ofInt (imm * 4)) % 2 ^ 32,
        stats := { p.stats with branches_taken := p.stats.branches_taken + 1 } })
    else .ok (false, p)
  | .Bne rs rt imm =>
    if p.get_register rs ≠ p.get_register rt then
      .ok (true, { p with
        pc := (p.pc + u32ofInt (imm * 4)) % 2 ^ 32,
        stats := { p.stats with branches_taken := p.stats.branches_taken + 1 } })
    else .ok (false, p)
  | .Slti rt rs imm =>
    .ok (false, p.set_register rt (if toI32 (p.get_register rs) < imm then 1 else 0))
  | .J addr =>
    .ok (true, { p with
      pc := (p.pc &&& 0xF0000000) ||| (addr <<< 2),
      stats := { p.stats with branches_taken := p.stats.branches_taken + 1 } })
  | .Jal addr =>
    let p₁ := p.set_register 31 ((p.pc + 4) % 2 ^ 32)
    .ok (true, { p₁ with
      pc := (p₁.pc &&& 0xF0000000) ||| (addr <<< 2),
      stats := { p₁.stats with branches_taken := p₁.stats.branches_taken + 1 } })
  | .Syscall =>
    match p.get_register 2 with
    | 1 => .ok (false, p)
    | 4 =>
      match print_string p.memory (p.get_register 4) with
      | .error e => .error (.MemoryError e)
      | .ok _ => .ok (false, p)
    | 10 => .error .ProgramEnd
    | 11 => .ok (false, p)
    | _ => .error (.InvalidInstruction instruction)
  | .Invalid => .error (.InvalidInstruction instruction)

/-- `Processor::step`: fetch through the cache at PC, execute, and, only
when no branch occurred, advance PC by 4 and count the executed
instruction. -/
def Processor.step (p : Processor) : Except ProcessorError (Bool × Processor) :=
  match p.fetch_instruction with
  | .error e => .error (.MemoryError e)
  | .ok (instruction, p₁) =>
    match p₁.execute_instruction instruction with
    | .error e => .error e
    | .ok (branch_taken, p₂) =>
      if branch_taken = false then
        .ok (false, { p₂ with
          pc := (p₂.pc + 4) % 2 ^ 32,
          stats := { p₂.stats with
            instructions_executed := p₂.stats.instructions_executed + 1 } })
      else .ok (true, p₂)

/-- One-loop-at-a-time model of `Processor::run` with explicit fuel.
`none` means the loop is still running after `fuel` iterations (the source
loop has no fuel and would still be looping).  Each iteration mirrors the
source: stop with `Ok(())` when PC is the sentinel `0xFFFFFFFF`; propagate
any fault from `step`; after a branch-free step stop with `Ok(())` if
register 2 holds 10; a `continue` after a taken branch skips the
instruction-count increment; otherwise increment the count and stop with
`Ok(())` once it exceeds 100000. -/
def runLoop : Nat → Processor → Nat → Option (Except ProcessorError Unit)
  | 0, _, _ => none
  | fuel + 1, p, instruction_count =>
    if p.pc = 0xFFFFFFFF then some (.ok ())
    else
      match p.step with
      | .error e => some (.error e)
      | .ok (true, p') => runLoop fuel p' instruction_count
      | .ok (false, p') =>
        if p'.registers 2 = 10 then some (.ok ())
        else
          let instruction_count' := instruction_count + 1
          if instruction_count' > 100000 then some (.ok ())
          else runLoop fuel p' instruction_count'

/-- The loop of `Processor::load_program`: write the `i`-th word at
`start_address + i * 4`. -/
def loadWords (m : Memory) (start_address : Nat) :
    List Nat → Nat → Except MemoryError Memory
  | [], _ => .ok m
  | w :: ws, i =>
    match m.write_instruction (start_address + i * 4) w with
    | .error e => .error e
    | .ok m' => loadWords m' start_address ws (i + 1)

/-- `Processor::load_program`: write the words 4 bytes apart starting at
`start_address` (directly to memory, not through the cache), then set PC. -/
def Processor.load_program (p : Processor) (program : List Nat)
    (start_address : Nat) : Except MemoryError Processor :=
  match loadWords p.memory start_address program 0 with
  | .error e => .error e
  | .ok m' => .ok { p with memory := m', pc := start_address }

/-- Test fixture: a processor with the given program loaded at the standard
program start (`0x00400000`) over a 5 MiB memory; the error branch is dead
for these in-bounds fixtures. -/
def demoLoaded (prog : List Nat) : Processor :=
  match (Processor.with_memory_size 0x500000).load_program prog 0x00400000 with
  | .ok p => p
  | .error _ => Processor.with_memory_size 0x500000

/-- Fixture: `addi $2, $0, 10` loaded at the program start. -/
def pAddi : Processor := demoLoaded [0x2002000A]

/-- Fixture: `beq $0, $0, 0` (an unconditional self-branch) loaded at the
program start. -/
def pBeq : Processor := demoLoaded [0x10000000]

/-- Fixture: `syscall` loaded at the program start, with register 2 preset
to 10 (the program-end syscall code). -/
def pSyscall10 : Processor := (demoLoaded [0x0000000C]).set_register 2 10

/-- The post-state of a successful `step`, for naming concrete states in
witnesses. -/
def stepResult (p : Processor) : Processor :=
  match p.step with
  | .ok (_, s) => s
  | .error _ => p

/-- State after one step of `pAddi`. -/
def qAddi : Processor := stepResult pAddi

/-- State after one step of `pBeq`. -/
def qBeq : Processor := stepResult pBeq

/-- The instructions after which `execute_instruction` reports a control
transfer: `Jr`, `J`, `Jal`, and a `Beq`/`Bne` whose condition holds in the
given register state. -/
def IsControlTransfer (t : InstructionType) (p : Processor) : Prop :=
  match t with
  | .Jr _ => True
  | .J _ => True
  | .Jal _ => True
  | .Beq rs rt _ => p.get_register rs = p.get_register rt
  | .Bne rs rt _ => p.get_register rs ≠ p.get_register rt
  | _ => False

/-- The word fetched by a successful `fetch_instruction`, for naming
concrete values in witnesses. -/
def fetchWord (p : Processor) : Nat :=
  match p.fetch_instruction with
  | .ok (i, _) => i
  | .error _ => 0

/-- The post-state of a successful `fetch_instruction`. -/
def fetchResult (p : Processor) : Processor :=
  match p.fetch_instruction with
  | .ok (_, s) => s
  | .error _ => p

/-- The post-state of a successful `execute_instruction`. -/
def execResult (p : Processor) (i : Nat) : Processor :=
  match p.execute_instruction i with
  | .ok (_, s) => s
  | .error _ => p

/-- Fixture: `lw $1, 0($0)` loaded at the program start. -/
def pLw : Processor := demoLoaded [0x8C010000]

/-- Fixture: `sw $1, 0($0)` loaded at the program start. -/
def pSw : Processor := demoLoaded [0xAC010000]

/-- Pure version of the way-lookup loop of `Cache::find_line`: the first
way in the list whose line is valid with the matching tag. -/
def findWay (s : CacheSet) (tag : Nat) : List Nat → Option Nat
  | [] => none
  | i :: rest =>
    if (s.lines i).valid = true ∧ (s.lines i).tag = tag then some i
    else findWay s tag rest

/-- The way holding `address`'s line, if cached. -/
def Cache.lookup (c : Cache) (address : Nat) : Option Nat :=
  findWay (c.sets (get_set_index address)) (get_tag address) [0, 1, 2, 3]

/-- The cached byte for `address`, if its line is cached. -/
def cachedByte (c : Cache) (address : Nat) : Option Nat :=
  match c.lookup address with
  | some w => some (((c.sets (get_set_index address)).lines w).data (get_offset address))
  | none => none

/-- The mutation `Cache::find_line` performs on a hit: restamp the hit
line's access time and bump the global counter. -/
def hitStamp (c : Cache) (si w : Nat) : Cache :=
  { c with
    sets := updf c.sets si
      { lines := updf (c.sets si).lines w
          { (c.sets si).lines w with access_time := c.access_counter } },
    access_counter := c.access_counter + 1 }

/-- Two caches whose lines agree on valid, tag, dirty and data everywhere
(access times, stats and the counter may differ). -/
def SameLines (c c' : Cache) : Prop :=
  ∀ si w, ((c'.sets si).lines w).valid = ((c.sets si).lines w).valid ∧
    ((c'.sets si).lines w).tag = ((c.sets si).lines w).tag ∧
    ((c'.sets si).lines w).dirty = ((c.sets si).lines w).dirty ∧
    ((c'.sets si).lines w).data = ((c.sets si).lines w).data

/-- The cache state after a `read_byte` hit at way `w`: restamped line and
one more hit. -/
def hitReadCache (c : Cache) (si w : Nat) : Cache :=
  let c₁ := hitStamp c si w
  { c₁ with stats := { c₁.stats with hits := c₁.stats.hits + 1 } }

/-- The cache state after a `write_byte` hit at way `w`: restamped line,
one more hit, the addressed byte overwritten and the line marked dirty. -/
def hitWriteCache (c : Cache) (si w off v : Nat) : Cache :=
  let c₂ := hitReadCache c si w
  let line := (c₂.sets si).lines w
  let line' := { line with data := updf line.data off v, dirty := true }
  { c₂ with sets := updf c₂.sets si { lines := updf (c₂.sets si).lines w line' } }

/-- The LRU victim policy as the spec words it: any invalid way wins
outright (scanning ways in order), otherwise the valid way with the
smallest access timestamp, ties broken by the lowest way index. -/
def selectLruRef (c : Cache) (si : Nat) : Nat :=
  if ((c.sets si).lines 0).valid = false then 0
  else if ((c.sets si).lines 1).valid = false then 1
  else if ((c.sets si).lines 2).valid = false then 2
  else if ((c.sets si).lines 3).valid = false then 3
  else
    let m := min (min ((c.sets si).lines 0).access_time
        ((c.sets si).lines 1).access_time)
      (min ((c.sets si).lines 2).access_time ((c.sets si).lines 3).access_time)
    if ((c.sets si).lines 0).access_time = m then 0
    else if ((c.sets si).lines 1).access_time = m then 1
    else if ((c.sets si).lines 2).access_time = m then 2
    else 3

/-- The victim way a miss on `address` would select. -/
def victimWay (c : Cache) (address : Nat) : Nat :=
  c.select_lru_line (get_set_index address)

/-- The victim line a miss on `address` would evict. -/
def victimLine (c : Cache) (address : Nat) : CacheLine :=
  (c.sets (get_set_index address)).lines (victimWay c address)

/-- The memory base address of the victim line, as reconstructed by
`writeback_line`. -/
def victimBase (c : Cache) (address : Nat) : Nat :=
  ((victimLine c address).tag * 64 + get_set_index address) * 32

/-- Well-formedness of a cache against a memory: every valid dirty line's
32-byte write-back span lies within the memory. The initial all-invalid
cache satisfies this trivially. -/
def CacheWF (c : Cache) (m : Memory) : Prop :=
  ∀ si w, w < 4 → ((c.sets si).lines w).valid = true →
    ((c.sets si).lines w).dirty = true →
    (((c.sets si).lines w).tag * 64 + si) * 32 + 31 < m.size

/-- Run `Cache.read_byte` over a list of addresses, threading cache and
memory; `none` if any read faults. -/
def readByteSeq (c : Cache) (m : Memory) : List Nat → Option (Cache × Memory)
  | [] => some (c, m)
  | a :: rest =>
    match c.read_byte m a with
    | .error _ => none
    | .ok (_, c', m') => readByteSeq c' m' rest

/-- A 16-KiB zero-filled memory. -/
def mem16k : Memory := Memory.with_size 16384

/-- Hit and miss counters after reading a list of addresses on a fresh
cache over `mem16k`. -/
def hitsMissesAfter (as : List Nat) : Option (Nat × Nat) :=
  (readByteSeq Cache.new mem16k as).map fun cm =>
    (cm.1.stats.hits, cm.1.stats.misses)

/-- A cache line for way `w` of the fully-valid test set: way 0 is the
least-recently-used way and the only dirty one. -/
def dirtyCacheLine (w : Nat) : CacheLine :=
  { valid := true, dirty := if w = 0 then true else false, tag := 10 * (w + 1), data := fun _ => 7, access_time := w }

/-- A cache whose set 0 has four valid lines (tags 10/20/30/40), way 0
least recently used and dirty. -/
def dirtyCache : Cache :=
  { sets := fun si => if si = 0 then { lines := fun w => dirtyCacheLine w } else CacheSet.new, stats := CacheStats.default, access_counter := 4 }

/-- Every line of the cache is clean, and every valid line holds exactly
the 32-byte memory block addressed by its tag and set index. -/
def CacheGood (c : Cache) (m : Memory) : Prop :=
  ∀ si w, w < 4 →
    ((c.sets si).lines w).dirty = false ∧
    (((c.sets si).lines w).valid = true →
      ∀ j, j < 32 → ((c.sets si).lines w).data j
        = m.data ((((c.sets si).lines w).tag * 64 + si) * 32 + j))

/-- The invariant of the stuck `beq $0, $0, 0` self-loop: PC parked at the
program start, the branch word stored there, and a clean cache agreeing
with memory. -/
def StuckInv (p : Processor) : Prop :=
  p.pc = 0x00400000 ∧ p.memory.size = 0x500000 ∧
  p.memory.data 0x00400000 = 0x00 ∧ p.memory.data 0x00400001 = 0x00 ∧
  p.memory.data 0x00400002 = 0x00 ∧ p.memory.data 0x00400003 = 0x10 ∧
  CacheGood p.cache p.memory

theorem updf_same {α : Type} (f : Nat → α) (i : Nat) (v : α) : updf f i v i = v := by
  simp [updf]

theorem updf_ne {α : Type} (f : Nat → α) (i j : Nat) (v : α) (h : j ≠ i) :
    updf f i v j = f j := by
  simp [updf, h]

/-- Claim C1: `decode` is a pure, total, deterministic function — it is a
Lean function `Nat → InstructionType`, so totality and determinism hold by
construction — and for every 32-bit word it returns exactly the variant
given by the spec's field extraction and dispatch table (`decodeSpec`,
written from the spec's own words); in particular
`decode 0x00430820 = Add 1 2 3` and `decode 0x20410064 = Addi 1 2 100`. -/
theorem decode_refines_spec :
    (∀ w, w < 2 ^ 32 → InstructionType.decode w = decodeSpec w) ∧
    InstructionType.decode 0x00430820 = .Add 1 2 3 ∧
    InstructionType.decode 0x20410064 = .Addi 1 2 100 := by
  refine ⟨fun w hw => ?_, by decide, by decide⟩
  have e : w / 2 ^ 26 % 2 ^ 8 = w / 2 ^ 26 % 2 ^ 6 := by omega
  simp only [InstructionType.decode, decodeSpec]
  rw [e]
  norm_num

/-- Witness for `decode_refines_spec` at the concrete word `0x00430820`. -/
theorem decode_refines_spec_witness :
    InstructionType.decode 0x00430820 = decodeSpec 0x00430820 :=
  decode_refines_spec.1 0x00430820 (by decide)

/-- Claim C6: register 0 is hardwired to 0 — writing any value to register
0 leaves the processor state unchanged (even as a whole state, hence in
particular as observed through `get_register`), and reading register 0
yields 0 in every state; writing `v` to register 0 and then reading
register 0 yields 0. -/
theorem register_zero_hardwired :
    (∀ (p : Processor) (v : Nat), p.set_register 0 v = p) ∧
    (∀ (p : Processor), p.get_register 0 = 0) ∧
    (∀ (p : Processor) (v r : Nat),
      (p.set_register 0 v).get_register r = p.get_register r) ∧
    (∀ (p : Processor) (v : Nat), (p.set_register 0 v).get_register 0 = 0) := by
  refine ⟨fun p v => by simp [Processor.set_register],
          fun p => rfl,
          fun p v r => by simp [Processor.set_register],
          fun p v => by simp [Processor.set_register, Processor.get_register]⟩

/-- Claim C10: inside `run`, whenever a `step` returns without a control
transfer and register 2 then holds 10, the loop stops at once with `Ok(())`
(success), regardless of the remaining program — the check reads the
register value alone; and after a step that did take a control transfer the
check (and the instruction-count increment) is skipped and the loop simply
continues. -/
theorem run_register_exit_check :
    (∀ (p q : Processor) (fuel count : Nat), p.pc ≠ 0xFFFFFFFF →
      p.step = .ok (false, q) → q.registers 2 = 10 →
      runLoop (fuel + 1) p count = some (.ok ())) ∧
    (∀ (p q : Processor) (fuel count : Nat), p.pc ≠ 0xFFFFFFFF →
      p.step = .ok (true, q) →
      runLoop (fuel + 1) p count = runLoop fuel q count) := by
  constructor
  · intro p q fuel count hpc hstep hreg
    simp [runLoop, hpc, hstep, hreg]
  · intro p q fuel count hpc hstep
    simp [runLoop, hpc, hstep]

/-- Witness for `run_register_exit_check`: after `addi $2, $0, 10` the loop
stops with success; after the taken branch of `pBeq` the loop continues
into the next iteration. -/
theorem run_register_exit_check_witness :
    runLoop 3 pAddi 0 = some (.ok ()) ∧ runLoop 4 pBeq 0 = runLoop 3 qBeq 0 :=
  ⟨run_register_exit_check.1 pAddi qAddi 2 0 (by decide) rfl rfl,
   run_register_exit_check.2 pBeq qBeq 3 0 (by decide) rfl⟩

/-- Claim C3 (code bug): executing `syscall` with register 2 holding 10
makes `execute_instruction` return `Err(ProgramEnd)`, and `run` propagates
that error through `self.step()?` — so `run` reports the program-end signal
on its failure channel (`Err`), not as a graceful success; the spec (and
the source's own comment at `processor.rs:332`) want the loop to exit with
`Ok` instead. -/
theorem syscall_ten_run_returns_error :
    pSyscall10.execute_instruction 0x0000000C = .error .ProgramEnd ∧
    runLoop 5 pSyscall10 0 = some (.error .ProgramEnd) :=
  ⟨rfl, rfl⟩

theorem set_register_pc (p : Processor) (r v : Nat) :
    (p.set_register r v).pc = p.pc := by
  unfold Processor.set_register; split <;> rfl

theorem set_register_stats (p : Processor) (r v : Nat) :
    (p.set_register r v).stats = p.stats := by
  unfold Processor.set_register; split <;> rfl

theorem exec_ok_false_pc (p : Processor) (i : Nat) (q : Processor)
    (h : p.execute_instruction i = .ok (false, q)) : q.pc = p.pc := by
  unfold Processor.execute_instruction at h
  cases hd : InstructionType.decode i <;> rw [hd] at h
  all_goals (try split at h)
  all_goals (try simp_all)
  all_goals (try split at h)
  all_goals (try simp_all)
  all_goals (try split at h)
  all_goals (try simp_all)
  all_goals (try subst h)
  all_goals (first | rfl | simp [set_register_pc])

theorem exec_stats (p : Processor) (i : Nat) (b : Bool) (q : Processor)
    (h : p.execute_instruction i = .ok (b, q)) :
    q.stats.instructions_executed = p.stats.instructions_executed ∧
    q.stats.branches_taken = p.stats.branches_taken + (if b then 1 else 0) ∧
    p.stats.loads_executed ≤ q.stats.loads_executed ∧
    p.stats.stores_executed ≤ q.stats.stores_executed := by
  unfold Processor.execute_instruction at h
  cases hd : InstructionType.decode i <;> rw [hd] at h
  all_goals (try split at h)
  all_goals (try simp_all)
  all_goals (try split at h)
  all_goals (try simp_all)
  all_goals (try split at h)
  all_goals (try simp_all)
  all_goals (try (obtain ⟨hb, hq⟩ := h; subst hb; subst hq))
  all_goals simp [set_register_stats]

theorem exec_transfer_iff (p : Processor) (i : Nat) (b : Bool) (q : Processor)
    (h : p.execute_instruction i = .ok (b, q)) :
    b = true ↔ IsControlTransfer (InstructionType.decode i) p := by
  unfold Processor.execute_instruction at h
  cases hd : InstructionType.decode i <;> rw [hd] at h <;>
    simp only [IsControlTransfer]
  all_goals (try split at h)
  all_goals (try simp_all)
  all_goals (try split at h)
  all_goals (try simp_all)
  all_goals (try split at h)
  all_goals (try simp_all)

theorem exec_lw_count (p : Processor) (i : Nat) (b : Bool) (q : Processor)
    (rt rs : Nat) (imm : Int) (hd : InstructionType.decode i = .Lw rt rs imm)
    (h : p.execute_instruction i = .ok (b, q)) :
    q.stats.loads_executed = p.stats.loads_executed + 1 := by
  unfold Processor.execute_instruction at h
  rw [hd] at h
  split at h
  all_goals (try simp_all)
  all_goals (try split at h)
  all_goals (try simp_all)
  all_goals (try (obtain ⟨hb, hq⟩ := h; subst hq))
  all_goals simp [set_register_stats]

theorem exec_sw_count (p : Processor) (i : Nat) (b : Bool) (q : Processor)
    (rt rs : Nat) (imm : Int) (hd : InstructionType.decode i = .Sw rt rs imm)
    (h : p.execute_instruction i = .ok (b, q)) :
    q.stats.stores_executed = p.stats.stores_executed + 1 := by
  unfold Processor.execute_instruction at h
  rw [hd] at h
  split at h
  all_goals (try simp_all)
  all_goals (try split at h)
  all_goals (try simp_all)
  all_goals (try (obtain ⟨hb, hq⟩ := h; subst hq))
  all_goals simp [set_register_stats]

theorem fetch_shape (p : Processor) (i : Nat) (p₁ : Processor)
    (h : p.fetch_instruction = .ok (i, p₁)) :
    p₁.pc = p.pc ∧ p₁.stats = p.stats ∧ p₁.registers = p.registers := by
  unfold Processor.fetch_instruction at h
  split at h <;> simp_all
  obtain ⟨h1, h2⟩ := h
  subst h2
  exact ⟨rfl, rfl, rfl⟩

theorem exec_beq_taken (p : Processor) (i : Nat) (rs rt : Nat) (imm : Int)
    (hd : InstructionType.decode i = .Beq rs rt imm)
    (hc : p.get_register rs = p.get_register rt) :
    ∃ q, p.execute_instruction i = .ok (true, q) ∧
      q.pc = (p.pc + u32ofInt (imm * 4)) % 2 ^ 32 := by
  refine ⟨{ p with
      pc := (p.pc + u32ofInt (imm * 4)) % 2 ^ 32,
      stats := { p.stats with branches_taken := p.stats.branches_taken + 1 } }, ?_, rfl⟩
  unfold Processor.execute_instruction
  rw [hd]
  simp only [hc, if_pos]

theorem exec_bne_taken (p : Processor) (i : Nat) (rs rt : Nat) (imm : Int)
    (hd : InstructionType.decode i = .Bne rs rt imm)
    (hc : p.get_register rs ≠ p.get_register rt) :
    ∃ q, p.execute_instruction i = .ok (true, q) ∧
      q.pc = (p.pc + u32ofInt (imm * 4)) % 2 ^ 32 := by
  refine ⟨{ p with
      pc := (p.pc + u32ofInt (imm * 4)) % 2 ^ 32,
      stats := { p.stats with branches_taken := p.stats.branches_taken + 1 } }, ?_, rfl⟩
  unfold Processor.execute_instruction
  rw [hd]
  simp only [hc, if_pos, ne_eq, not_false_eq_true]

theorem step_decomp (p : Processor) (b : Bool) (q : Processor)
    (h : p.step = .ok (b, q)) :
    ∃ i p₁ q', p.fetch_instruction = .ok (i, p₁) ∧
      p₁.execute_instruction i = .ok (b, q') ∧
      (b = true → q = q') ∧
      (b = false → q.pc = (p.pc + 4) % 2 ^ 32) := by
  unfold Processor.step at h
  split at h
  · simp at h
  next i p₁ hf =>
    split at h
    · simp at h
    next bt q' he =>
      split at h
      · next hbt =>
        subst hbt
        simp only [Except.ok.injEq, Prod.mk.injEq] at h
        obtain ⟨hb, hq⟩ := h
        subst hb
        refine ⟨i, p₁, q', hf, he, by simp, fun _ => ?_⟩
        rw [← hq]
        have h1 : q'.pc = p₁.pc := exec_ok_false_pc p₁ i q' he
        have h2 : p₁.pc = p.pc := (fetch_shape p i p₁ hf).1
        simp [h1, h2]
      · next hbt =>
        have hbt' : bt = true := by revert hbt; cases bt <;> simp
        subst hbt'
        simp only [Except.ok.injEq, Prod.mk.injEq] at h
        obtain ⟨hb, hq⟩ := h
        subst hb
        exact ⟨i, p₁, q', hf, he, fun _ => hq.symm, by simp⟩

/-- Claim C2: `step` fetches one word through the cache at PC (the fetch
leaves PC unchanged), executes it, and then advances PC by exactly 4 if
and only if the instruction did not itself redirect PC: when a control
transfer is reported the final state is exactly the post-execute state
(no additional +4), a transfer is reported exactly for `Jr`, `J`, `Jal`
and a taken `Beq`/`Bne`, and a taken `Beq`/`Bne` sets PC to the
fetch-time (pre-increment) PC plus `imm * 4` (wrapping u32). -/
theorem step_pc_advance_iff_no_transfer :
    (∀ (p : Processor) (i : Nat) (p₁ : Processor),
      p.fetch_instruction = .ok (i, p₁) → p₁.pc = p.pc) ∧
    (∀ (p : Processor) (b : Bool) (q : Processor), p.step = .ok (b, q) →
      ∃ i p₁ q', p.fetch_instruction = .ok (i, p₁) ∧
        p₁.execute_instruction i = .ok (b, q') ∧
        (b = true → q = q') ∧
        (b = false → q.pc = (p.pc + 4) % 2 ^ 32)) ∧
    (∀ (p : Processor) (i : Nat) (b : Bool) (q : Processor),
      p.execute_instruction i = .ok (b, q) →
      (b = true ↔ IsControlTransfer (InstructionType.decode i) p)) ∧
    (∀ (p : Processor) (i : Nat) (rs rt : Nat) (imm : Int),
      InstructionType.decode i = .Beq rs rt imm →
      p.get_register rs = p.get_register rt →
      ∃ q, p.execute_instruction i = .ok (true, q) ∧
        q.pc = (p.pc + u32ofInt (imm * 4)) % 2 ^ 32) ∧
    (∀ (p : Processor) (i : Nat) (rs rt : Nat) (imm : Int),
      InstructionType.decode i = .Bne rs rt imm →
      p.get_register rs ≠ p.get_register rt →
      ∃ q, p.execute_instruction i = .ok (true, q) ∧
        q.pc = (p.pc + u32ofInt (imm * 4)) % 2 ^ 32) :=
  ⟨fun p i p₁ h => (fetch_shape p i p₁ h).1,
   step_decomp,
   exec_transfer_iff,
   exec_beq_taken,
   exec_bne_taken⟩

/-- Witness for `step_pc_advance_iff_no_transfer` on the concrete
fixtures: the fetch at `pAddi` preserves PC; the branch-free step of
`pAddi` decomposes as fetch-execute-advance; the addi reports no transfer;
the taken `beq $0, $0, 0` of `pBeq` and a taken `bne $0, $29, 0` at
`pAddi` set PC as the instruction computed it. -/
theorem step_pc_advance_iff_no_transfer_witness :
    (fetchResult pAddi).pc = pAddi.pc ∧
    (∃ i p₁ q', pAddi.fetch_instruction = .ok (i, p₁) ∧
      p₁.execute_instruction i = .ok (false, q') ∧
      (False → qAddi = q') ∧
      (false = false → qAddi.pc = (pAddi.pc + 4) % 2 ^ 32)) ∧
    (false = true ↔
      IsControlTransfer (InstructionType.decode 0x2002000A) pAddi) ∧
    (∃ q, pBeq.execute_instruction 0x10000000 = .ok (true, q) ∧
      q.pc = (pBeq.pc + u32ofInt (0 * 4)) % 2 ^ 32) ∧
    (∃ q, pAddi.execute_instruction 0x141D0000 = .ok (true, q) ∧
      q.pc = (pAddi.pc + u32ofInt (0 * 4)) % 2 ^ 32) := by
  refine ⟨step_pc_advance_iff_no_transfer.1 pAddi (fetchWord pAddi) (fetchResult pAddi) rfl,
    ?_,
    step_pc_advance_iff_no_transfer.2.2.1 pAddi 0x2002000A false
      (execResult pAddi 0x2002000A) rfl,
    step_pc_advance_iff_no_transfer.2.2.2.1 pBeq 0x10000000 0 0 0 (by decide) rfl,
    step_pc_advance_iff_no_transfer.2.2.2.2 pAddi 0x141D0000 0 29 0 (by decide)
      (by decide)⟩
  have h := step_pc_advance_iff_no_transfer.2.1 pAddi false qAddi rfl
  obtain ⟨i, p₁, q', h1, h2, h3, h4⟩ := h
  exact ⟨i, p₁, q', h1, h2, fun hfalse => absurd hfalse (by simp), h4⟩

theorem step_stats (p : Processor) (b : Bool) (q : Processor)
    (h : p.step = .ok (b, q)) :
    q.stats.instructions_executed
        = p.stats.instructions_executed + (if b then 0 else 1) ∧
    q.stats.branches_taken = p.stats.branches_taken + (if b then 1 else 0) ∧
    p.stats.instructions_executed ≤ q.stats.instructions_executed ∧
    p.stats.branches_taken ≤ q.stats.branches_taken ∧
    p.stats.loads_executed ≤ q.stats.loads_executed ∧
    p.stats.stores_executed ≤ q.stats.stores_executed := by
  unfold Processor.step at h
  split at h
  · simp at h
  next i p₁ hf =>
    have hfs : p₁.stats = p.stats := (fetch_shape p i p₁ hf).2.1
    split at h
    · simp at h
    next bt q' he =>
      have hes := exec_stats p₁ i bt q' he
      split at h
      · next hbt =>
        subst hbt
        simp only [Except.ok.injEq, Prod.mk.injEq] at h
        obtain ⟨hb, hq⟩ := h
        subst hb
        rw [← hq]
        simp only [← hfs]
        simp at hes ⊢
        omega
      · next hbt =>
        have hbt' : bt = true := by revert hbt; cases bt <;> simp
        subst hbt'
        simp only [Except.ok.injEq, Prod.mk.injEq] at h
        obtain ⟨hb, hq⟩ := h
        subst hb
        rw [← hq]
        simp only [← hfs]
        simp at hes ⊢
        omega

/-- Claim C5 counterexample: the taken branch of `pBeq` is an instruction
successfully completed by `step` (it returns `Ok(true, ·)`), yet the
instructions-executed counter stays at 0 instead of incrementing to 1. -/
theorem branch_not_counted_executed :
    pBeq.step = .ok (true, qBeq) ∧
    pBeq.stats.instructions_executed = 0 ∧
    qBeq.stats.instructions_executed = 0 :=
  ⟨rfl, rfl, rfl⟩

/-- Claim C5 amended: an instruction completed by `step` without a control
transfer increments the instructions-executed counter by exactly 1, while
a taken control transfer leaves it unchanged; every taken control transfer
increments the branch counter by exactly 1; every executed `Lw`/`Sw`
increments the load/store counter by exactly 1; and all four counters
(which are `Nat`s, hence non-negative) are monotonically non-decreasing
across a step. -/
theorem step_counters_amended :
    (∀ (p : Processor) (b : Bool) (q : Processor), p.step = .ok (b, q) →
      q.stats.instructions_executed
          = p.stats.instructions_executed + (if b then 0 else 1) ∧
      q.stats.branches_taken = p.stats.branches_taken + (if b then 1 else 0) ∧
      p.stats.instructions_executed ≤ q.stats.instructions_executed ∧
      p.stats.branches_taken ≤ q.stats.branches_taken ∧
      p.stats.loads_executed ≤ q.stats.loads_executed ∧
      p.stats.stores_executed ≤ q.stats.stores_executed) ∧
    (∀ (p : Processor) (i : Nat) (b : Bool) (q : Processor) (rt rs : Nat)
        (imm : Int), InstructionType.decode i = .Lw rt rs imm →
      p.execute_instruction i = .ok (b, q) →
      q.stats.loads_executed = p.stats.loads_executed + 1) ∧
    (∀ (p : Processor) (i : Nat) (b : Bool) (q : Processor) (rt rs : Nat)
        (imm : Int), InstructionType.decode i = .Sw rt rs imm →
      p.execute_instruction i = .ok (b, q) →
      q.stats.stores_executed = p.stats.stores_executed + 1) :=
  ⟨step_stats,
   fun p i b q rt rs imm hd h => exec_lw_count p i b q rt rs imm hd h,
   fun p i b q rt rs imm hd h => exec_sw_count p i b q rt rs imm hd h⟩

/-- Witness for `step_counters_amended`: the branch-free `addi` step, a
concrete `lw $1, 0($0)` and a concrete `sw $1, 0($0)`. -/
theorem step_counters_amended_witness :
    (qAddi.stats.instructions_executed
        = pAddi.stats.instructions_executed + (if false then 0 else 1)) ∧
    (execResult pLw 0x8C010000).stats.loads_executed
        = pLw.stats.loads_executed + 1 ∧
    (execResult pSw 0xAC010000).stats.stores_executed
        = pSw.stats.stores_executed + 1 :=
  ⟨(step_counters_amended.1 pAddi false qAddi rfl).1,
   step_counters_amended.2.1 pLw 0x8C010000 false (execResult pLw 0x8C010000)
     1 0 0 (by decide) rfl,
   step_counters_amended.2.2 pSw 0xAC010000 false (execResult pSw 0xAC010000)
     1 0 0 (by decide) rfl⟩

theorem findLineFrom_eq (c : Cache) (si tg : Nat) (l : List Nat) :
    findLineFrom c si tg l = (findWay (c.sets si) tg l).map fun w => (w, hitStamp c si w) := by
  induction l with
  | nil => rfl
  | cons i rest ih =>
    by_cases h : ((c.sets si).lines i).valid = true ∧ ((c.sets si).lines i).tag = tg
    · simp [findLineFrom, findWay, h, hitStamp]
    · simp [findLineFrom, findWay, h, ih]

theorem find_line_eq (c : Cache) (si tg : Nat) :
    c.find_line si tg = (findWay (c.sets si) tg [0, 1, 2, 3]).map fun w => (w, hitStamp c si w) :=
  findLineFrom_eq c si tg [0, 1, 2, 3]

theorem findWay_some (s : CacheSet) (tg : Nat) (l : List Nat) (w : Nat)
    (h : findWay s tg l = some w) :
    w ∈ l ∧ (s.lines w).valid = true ∧ (s.lines w).tag = tg := by
  induction l with
  | nil => simp [findWay] at h
  | cons i rest ih =>
    by_cases hc : (s.lines i).valid = true ∧ (s.lines i).tag = tg
    · simp [findWay, hc] at h
      subst h
      exact ⟨List.mem_cons_self i rest, hc⟩
    · simp [findWay, hc] at h
      obtain ⟨h1, h2, h3⟩ := ih h
      exact ⟨List.mem_cons_of_mem i h1, h2, h3⟩

theorem findWay_none (s : CacheSet) (tg : Nat) (l : List Nat)
    (h : findWay s tg l = none) :
    ∀ w ∈ l, ¬((s.lines w).valid = true ∧ (s.lines w).tag = tg) := by
  induction l with
  | nil => intro w hw; simp at hw
  | cons i rest ih =>
    by_cases hc : (s.lines i).valid = true ∧ (s.lines i).tag = tg
    · simp [findWay, hc] at h
    · simp [findWay, hc] at h
      intro w hw
      rcases List.mem_cons.mp hw with h1 | h1
      · subst h1; exact hc
      · exact ih h w h1

theorem findWay_congr (s s' : CacheSet) (tg : Nat) (l : List Nat)
    (h : ∀ w ∈ l, (s'.lines w).valid = (s.lines w).valid ∧
      (s'.lines w).tag = (s.lines w).tag) :
    findWay s' tg l = findWay s tg l := by
  induction l with
  | nil => rfl
  | cons i rest ih =>
    have hi := h i (List.mem_cons_self i rest)
    by_cases hc : (s.lines i).valid = true ∧ (s.lines i).tag = tg
    · simp [findWay, hc, hi.1, hi.2]
    · have hc' : ¬((s'.lines i).valid = true ∧ (s'.lines i).tag = tg) := by
        rw [hi.1, hi.2]; exact hc
      simp only [findWay]
      rw [if_neg hc', if_neg hc]
      exact ih fun w hw => h w (List.mem_cons_of_mem i hw)

theorem SameLines_lookup (c c' : Cache) (h : SameLines c c') (a : Nat) :
    c'.lookup a = c.lookup a := by
  unfold Cache.lookup
  exact findWay_congr _ _ _ _ fun w _ => ⟨(h _ w).1, (h _ w).2.1⟩

theorem SameLines_cachedByte (c c' : Cache) (h : SameLines c c') (a : Nat) :
    cachedByte c' a = cachedByte c a := by
  unfold cachedByte
  rw [SameLines_lookup c c' h a]
  cases hl : c.lookup a with
  | none => rfl
  | some w =>
    show some (((c'.sets (get_set_index a)).lines w).data (get_offset a))
      = some (((c.sets (get_set_index a)).lines w).data (get_offset a))
    rw [(h _ w).2.2.2]

theorem hitStamp_SameLines (c : Cache) (si w : Nat) :
    SameLines c (hitStamp c si w) := by
  intro si' w'
  by_cases hsi : si' = si
  · subst hsi
    by_cases hw : w' = w
    · subst hw
      simp [hitStamp, updf]
    · simp [hitStamp, updf, hw]
  · simp [hitStamp, updf, hsi]

theorem lookup_congr (c c' : Cache)
    (h : ∀ si w, ((c'.sets si).lines w).valid = ((c.sets si).lines w).valid ∧
      ((c'.sets si).lines w).tag = ((c.sets si).lines w).tag) (a : Nat) :
    c'.lookup a = c.lookup a := by
  unfold Cache.lookup
  exact findWay_congr _ _ _ _ fun w _ => h _ w

theorem read_byte_hit (c : Cache) (m : Memory) (a w : Nat)
    (hw : c.lookup a = some w) :
    Cache.read_byte c m a
        = .ok (((c.sets (get_set_index a)).lines w).data (get_offset a),
          hitReadCache c (get_set_index a) w, m) ∧
    SameLines c (hitReadCache c (get_set_index a) w) ∧
    (hitReadCache c (get_set_index a) w).stats.hits = c.stats.hits + 1 ∧
    (hitReadCache c (get_set_index a) w).stats.misses = c.stats.misses ∧
    (hitReadCache c (get_set_index a) w).stats.writebacks = c.stats.writebacks ∧
    cachedByte c a
        = some (((c.sets (get_set_index a)).lines w).data (get_offset a)) := by
  have hfl : c.find_line (get_set_index a) (get_tag a)
      = some (w, hitStamp c (get_set_index a) w) := by
    rw [find_line_eq]
    unfold Cache.lookup at hw
    rw [hw]
    rfl
  have hdata0 : (((hitStamp c (get_set_index a) w).sets (get_set_index a)).lines w).data
      = ((c.sets (get_set_index a)).lines w).data :=
    (hitStamp_SameLines c (get_set_index a) w (get_set_index a) w).2.2.2
  refine ⟨?_, ?_, rfl, rfl, rfl, ?_⟩
  · simp only [Cache.read_byte, hfl]
    rw [hdata0]
    rfl
  · exact hitStamp_SameLines c (get_set_index a) w
  · simp [cachedByte, hw]

theorem write_byte_hit (c : Cache) (m : Memory) (a v w : Nat)
    (hw : c.lookup a = some w) :
    Cache.write_byte c m a v
        = .ok (hitWriteCache c (get_set_index a) w (get_offset a) v, m) ∧
    (∀ si' w',
      (((hitWriteCache c (get_set_index a) w (get_offset a) v).sets si').lines w').valid
        = ((c.sets si').lines w').valid ∧
      (((hitWriteCache c (get_set_index a) w (get_offset a) v).sets si').lines w').tag
        = ((c.sets si').lines w').tag) ∧
    (∀ si', si' ≠ get_set_index a →
      (hitWriteCache c (get_set_index a) w (get_offset a) v).sets si' = c.sets si') ∧
    cachedByte (hitWriteCache c (get_set_index a) w (get_offset a) v) a = some v ∧
    (∀ a', get_set_index a' = get_set_index a → get_tag a' = get_tag a →
      get_offset a' ≠ get_offset a →
      cachedByte (hitWriteCache c (get_set_index a) w (get_offset a) v) a'
        = cachedByte c a') := by
  have hfl : c.find_line (get_set_index a) (get_tag a)
      = some (w, hitStamp c (get_set_index a) w) := by
    rw [find_line_eq]
    unfold Cache.lookup at hw
    rw [hw]
    rfl
  have hvt : ∀ si' w',
      (((hitWriteCache c (get_set_index a) w (get_offset a) v).sets si').lines w').valid
        = ((c.sets si').lines w').valid ∧
      (((hitWriteCache c (get_set_index a) w (get_offset a) v).sets si').lines w').tag
        = ((c.sets si').lines w').tag := by
    intro si' w'
    by_cases hsi : si' = get_set_index a
    · subst hsi
      by_cases hww : w' = w
      · subst hww
        simp [hitWriteCache, hitReadCache, hitStamp, updf]
      · simp [hitWriteCache, hitReadCache, hitStamp, updf, hww]
    · simp [hitWriteCache, hitReadCache, hitStamp, updf, hsi]
  have hlk : ∀ a', (hitWriteCache c (get_set_index a) w (get_offset a) v).lookup a'
      = c.lookup a' := lookup_congr c _ hvt
  have hdata : ∀ w', (((hitWriteCache c (get_set_index a) w (get_offset a) v).sets
        (get_set_index a)).lines w').data
      = if w' = w then updf (((c.sets (get_set_index a)).lines w).data) (get_offset a) v
        else ((c.sets (get_set_index a)).lines w').data := by
    intro w'
    by_cases hww : w' = w
    · subst hww
      simp [hitWriteCache, hitReadCache, hitStamp, updf]
    · simp [hitWriteCache, hitReadCache, hitStamp, updf, hww]
  refine ⟨?_, hvt, ?_, ?_, ?_⟩
  · simp only [Cache.write_byte, hfl]
    rfl
  · intro si' hsi
    simp [hitWriteCache, hitReadCache, hitStamp, updf, hsi]
  · unfold cachedByte
    rw [hlk a, hw]
    show some _ = some v
    rw [hdata w]
    simp [updf]
  · intro a' hsi htg hoff
    unfold cachedByte
    rw [hlk a']
    have hla' : c.lookup a' = c.lookup a := by
      unfold Cache.lookup
      rw [hsi, htg]
    rw [hla', hw]
    show some _ = some _
    rw [hsi, hdata w]
    simp [updf, hoff]

theorem writebackBytes_ok (base : Nat) (d : Nat → Nat) :
    ∀ (n : Nat) (m : Memory) (i : Nat), (∀ j, j < n → base + (i + j) < m.size) →
    ∃ m', writebackBytes m base d i n = .ok m' ∧ m'.size = m.size ∧
      (∀ x, m'.data x = if base + i ≤ x ∧ x < base + i + n
        then d (x - base) % 256 else m.data x) := by
  intro n
  induction n with
  | zero =>
    intro m i _
    refine ⟨m, rfl, rfl, fun x => ?_⟩
    rw [if_neg (by omega)]
  | succ n ih =>
    intro m i h
    have hb : base + i < m.size := by have := h 0 (by omega); omega
    have hw : m.write_byte (base + i) (d i)
        = .ok { m with data := updf m.data (base + i) (d i % 256) } := by
      unfold Memory.write_byte
      rw [if_neg (by omega)]
    obtain ⟨m', hm', hsz, hdata⟩ :=
      ih { m with data := updf m.data (base + i) (d i % 256) } (i + 1)
        (by intro j hj; have := h (j + 1) (by omega); simpa using by omega)
    refine ⟨m', ?_, by simpa using hsz, fun x => ?_⟩
    · unfold writebackBytes
      rw [hw]
      exact hm'
    · rw [hdata x]
      by_cases h1 : base + (i + 1) ≤ x ∧ x < base + (i + 1) + n
      · rw [if_pos h1, if_pos (by omega)]
      · rw [if_neg h1]
        by_cases h2 : x = base + i
        · subst h2
          show updf m.data (base + i) (d i % 256) (base + i) = _
          rw [updf_same, if_pos (by omega)]
          have he : base + i - base = i := by omega
          rw [he]
        · show updf m.data (base + i) (d i % 256) x = _
          rw [updf_ne _ _ _ _ h2, if_neg (by omega)]

theorem loadBytes_ok (base : Nat) :
    ∀ (n : Nat) (m : Memory) (d : Nat → Nat) (i : Nat),
      (∀ j, j < n → base + (i + j) < m.size) →
    ∃ d', loadBytes m base d i n = .ok d' ∧
      (∀ x, d' x = if i ≤ x ∧ x < i + n then m.data (base + x) else d x) := by
  intro n
  induction n with
  | zero =>
    intro m d i _
    refine ⟨d, rfl, fun x => ?_⟩
    rw [if_neg (by omega)]
  | succ n ih =>
    intro m d i h
    have hb : base + i < m.size := by have := h 0 (by omega); omega
    have hr : m.read_byte (base + i) = .ok (m.data (base + i)) := by
      unfold Memory.read_byte
      rw [if_neg (by omega)]
    obtain ⟨d', hd', hdata⟩ :=
      ih m (updf d i (m.data (base + i))) (i + 1)
        (by intro j hj; have := h (j + 1) (by omega); omega)
    refine ⟨d', ?_, fun x => ?_⟩
    · unfold loadBytes
      rw [hr]
      exact hd'
    · rw [hdata x]
      by_cases h1 : i + 1 ≤ x ∧ x < i + 1 + n
      · rw [if_pos h1, if_pos (by omega)]
      · rw [if_neg h1]
        by_cases h2 : x = i
        · subst h2
          rw [updf_same, if_pos (by omega)]
        · rw [updf_ne _ _ _ _ h2, if_neg (by omega)]

theorem selectLruFrom_cons (c : Cache) (si i : Nat) (rest : List Nat) (lru old : Nat) :
    selectLruFrom c si (i :: rest) lru old =
      if ((c.sets si).lines i).valid = false then i
      else if ((c.sets si).lines i).access_time < old
        then selectLruFrom c si rest i ((c.sets si).lines i).access_time
        else selectLruFrom c si rest lru old := rfl

theorem selectLruFrom_nil (c : Cache) (si lru old : Nat) :
    selectLruFrom c si [] lru old = lru := rfl

set_option maxHeartbeats 2000000 in
theorem select_lru_lt4 (c : Cache) (si : Nat) : c.select_lru_line si < 4 := by
  unfold Cache.select_lru_line
  repeat rw [selectLruFrom_cons]
  repeat rw [selectLruFrom_nil]
  split_ifs <;> omega

set_option maxHeartbeats 4000000 in
theorem select_lru_eq_ref (c : Cache) (si : Nat) :
    c.select_lru_line si = selectLruRef c si := by
  unfold Cache.select_lru_line selectLruRef
  simp only [selectLruFrom_cons, selectLruFrom_nil]
  split_ifs <;> omega

set_option maxHeartbeats 1000000 in
theorem selectLruRef_invalid (c : Cache) (si : Nat)
    (hinv : ∃ w, w < 4 ∧ ((c.sets si).lines w).valid = false) :
    ((c.sets si).lines (selectLruRef c si)).valid = false ∧
    ∀ w', w' < selectLruRef c si → ((c.sets si).lines w').valid = true := by
  obtain ⟨w, hw, hv⟩ := hinv
  unfold selectLruRef
  split_ifs
  all_goals refine ⟨?_, fun w' hw' => ?_⟩
  all_goals first
    | assumption
    | (interval_cases w' <;> simp_all)
    | (interval_cases w <;> simp_all)

set_option maxHeartbeats 1000000 in
theorem selectLruRef_lru (c : Cache) (si : Nat)
    (hall : ∀ w, w < 4 → ((c.sets si).lines w).valid = true) :
    (∀ w, w < 4 → ((c.sets si).lines (selectLruRef c si)).access_time
      ≤ ((c.sets si).lines w).access_time) ∧
    (∀ w, w < 4 → ((c.sets si).lines w).access_time
      = ((c.sets si).lines (selectLruRef c si)).access_time
      → selectLruRef c si ≤ w) := by
  have hv : ∀ k, k < 4 → ¬(((c.sets si).lines k).valid = false) := by
    intro k hk
    simp [hall k hk]
  unfold selectLruRef
  simp only [if_neg (hv 0 (by omega)), if_neg (hv 1 (by omega)),
    if_neg (hv 2 (by omega)), if_neg (hv 3 (by omega))]
  split_ifs
  all_goals refine ⟨fun w hw => ?_, fun w hw heq => ?_⟩
  all_goals interval_cases w <;> omega

theorem cachedByte_set_eq (c c' : Cache) (a : Nat)
    (h : c'.sets (get_set_index a) = c.sets (get_set_index a)) :
    cachedByte c' a = cachedByte c a := by
  unfold cachedByte Cache.lookup
  rw [h]

theorem findWay_alloc (s : CacheSet) (tg w : Nat) (hw : w < 4)
    (hnone : findWay s tg [0, 1, 2, 3] = none) (line' : CacheLine)
    (hv : line'.valid = true) (ht : line'.tag = tg) :
    findWay { lines := updf s.lines w line' } tg [0, 1, 2, 3] = some w := by
  have hb0 := findWay_none s tg _ hnone 0 (by simp)
  have hb1 := findWay_none s tg _ hnone 1 (by simp)
  have hb2 := findWay_none s tg _ hnone 2 (by simp)
  have hb3 := findWay_none s tg _ hnone 3 (by simp)
  interval_cases w <;>
    simp [findWay, updf, hv, ht, hb0, hb1, hb2, hb3]

theorem line_base_offset (a : Nat) :
    (get_tag a * 64 + get_set_index a) * 32 + get_offset a = a := by
  unfold get_tag get_set_index get_offset
  omega

theorem line_base_le (a : Nat) :
    (get_tag a * 64 + get_set_index a) * 32 ≤ a ∧
    a < (get_tag a * 64 + get_set_index a) * 32 + 32 := by
  unfold get_tag get_set_index
  omega

theorem missCounted_sets (c : Cache) : (missCounted c).sets = c.sets := rfl

theorem writeback_line_clean (c : Cache) (m : Memory) (si w : Nat)
    (hd : ((c.sets si).lines w).dirty = false) :
    c.writeback_line m si w = .ok (c, m) := by
  unfold Cache.writeback_line
  rw [if_pos hd]

theorem writeback_line_dirty (c : Cache) (m : Memory) (si w : Nat)
    (hd : ((c.sets si).lines w).dirty = true)
    (hb : (((c.sets si).lines w).tag * 64 + si) * 32 + 31 < m.size) :
    ∃ m₁, c.writeback_line m si w
        = .ok ({ c with stats :=
            { c.stats with writebacks := c.stats.writebacks + 1 } }, m₁) ∧
      m₁.size = m.size ∧
      ∀ x, m₁.data x = if (((c.sets si).lines w).tag * 64 + si) * 32 ≤ x ∧
          x < (((c.sets si).lines w).tag * 64 + si) * 32 + 32
        then ((c.sets si).lines w).data
          (x - (((c.sets si).lines w).tag * 64 + si) * 32) % 256
        else m.data x := by
  obtain ⟨m₁, hm₁, hsz, hdata⟩ :=
    writebackBytes_ok ((((c.sets si).lines w).tag * 64 + si) * 32)
      ((c.sets si).lines w).data 32 m 0 (by intro j hj; omega)
  refine ⟨m₁, ?_, hsz, fun x => ?_⟩
  · unfold Cache.writeback_line
    simp only [hd, Bool.true_eq_false, if_false]
    rw [hm₁]
  · rw [hdata x]
    by_cases hx : (((c.sets si).lines w).tag * 64 + si) * 32 ≤ x ∧
        x < (((c.sets si).lines w).tag * 64 + si) * 32 + 32
    · rw [if_pos (by omega), if_pos hx]
    · rw [if_neg (by omega), if_neg hx]

theorem selectLruFrom_sets_congr (c c' : Cache) (si : Nat)
    (hc : c'.sets si = c.sets si) :
    ∀ (l : List Nat) (lru old : Nat),
      selectLruFrom c' si l lru old = selectLruFrom c si l lru old := by
  intro l
  induction l with
  | nil => intro lru old; rfl
  | cons i rest ih =>
    intro lru old
    rw [selectLruFrom_cons, selectLruFrom_cons, hc]
    split_ifs <;> first | rfl | exact ih _ _

theorem missCounted_select (c : Cache) (si : Nat) :
    (missCounted c).select_lru_line si = c.select_lru_line si := by
  unfold Cache.select_lru_line
  rw [missCounted_sets]
  exact selectLruFrom_sets_congr c (missCounted c) si
    (congrFun (missCounted_sets c) si) _ _ _

theorem allocWrite_props (c c₂ : Cache) (a v : Nat)
    (hnone : c.lookup a = none) (hsets : c₂.sets = c.sets) (w : Nat)
    (hw4 : w < 4) :
    (∀ si', si' ≠ get_set_index a →
      (allocWrite c₂ (get_set_index a) w (get_tag a) (get_offset a) v).sets si'
        = c.sets si') ∧
    (((allocWrite c₂ (get_set_index a) w (get_tag a) (get_offset a) v).sets
        (get_set_index a)).lines w).valid = true ∧
    (((allocWrite c₂ (get_set_index a) w (get_tag a) (get_offset a) v).sets
        (get_set_index a)).lines w).dirty = true ∧
    (((allocWrite c₂ (get_set_index a) w (get_tag a) (get_offset a) v).sets
        (get_set_index a)).lines w).tag = get_tag a ∧
    (((allocWrite c₂ (get_set_index a) w (get_tag a) (get_offset a) v).sets
        (get_set_index a)).lines w).data
      = updf (((c.sets (get_set_index a)).lines w).data) (get_offset a) v ∧
    (∀ w', w' ≠ w →
      ((allocWrite c₂ (get_set_index a) w (get_tag a) (get_offset a) v).sets
        (get_set_index a)).lines w' = (c.sets (get_set_index a)).lines w') ∧
    cachedByte (allocWrite c₂ (get_set_index a) w (get_tag a) (get_offset a) v) a
      = some v ∧
    (allocWrite c₂ (get_set_index a) w (get_tag a) (get_offset a) v).stats
      = c₂.stats := by
  refine ⟨?_, ?_, ?_, ?_, ?_, ?_, ?_, rfl⟩
  · intro si' hsi
    simp [allocWrite, updf, hsi, hsets]
  · simp [allocWrite, updf]
  · simp [allocWrite, updf]
  · simp [allocWrite, updf]
  · simp [allocWrite, updf, hsets]
  · intro w' hw'
    simp [allocWrite, updf, hw', hsets]
  · unfold cachedByte Cache.lookup
    have hfa : findWay ((allocWrite c₂ (get_set_index a) w (get_tag a)
        (get_offset a) v).sets (get_set_index a)) (get_tag a) [0, 1, 2, 3]
        = some w := by
      have hshape : (allocWrite c₂ (get_set_index a) w (get_tag a)
          (get_offset a) v).sets (get_set_index a)
          = CacheSet.mk (updf ((c.sets (get_set_index a)).lines) w
              (CacheLine.mk true true (get_tag a)
                (updf (((c₂.sets (get_set_index a)).lines w).data)
                  (get_offset a) v)
                c₂.access_counter)) := by
        simp [allocWrite, updf, hsets]
      rw [hshape]
      exact findWay_alloc (c.sets (get_set_index a)) (get_tag a) w hw4 hnone _
        rfl rfl
    rw [hfa]
    show some _ = some v
    have : ((allocWrite c₂ (get_set_index a) w (get_tag a) (get_offset a)
        v).sets (get_set_index a)).lines w
        = CacheLine.mk true true (get_tag a)
            (updf (((c₂.sets (get_set_index a)).lines w).data)
              (get_offset a) v)
            c₂.access_counter := by
      simp [allocWrite, updf]
    rw [this]
    show some (updf (((c₂.sets (get_set_index a)).lines w).data)
      (get_offset a) v (get_offset a)) = some v
    rw [updf_same]

set_option maxHeartbeats 1000000 in
theorem write_byte_miss (c : Cache) (m : Memory) (a v : Nat)
    (hnone : c.lookup a = none)
    (hWB : (victimLine c a).valid = true → (victimLine c a).dirty = true →
      victimBase c a + 31 < m.size) :
    ∃ c' m', Cache.write_byte c m a v = .ok (c', m') ∧
      m'.size = m.size ∧
      (∀ si', si' ≠ get_set_index a → c'.sets si' = c.sets si') ∧
      cachedByte c' a = some v ∧
      ((c'.sets (get_set_index a)).lines (victimWay c a)).valid = true ∧
      ((c'.sets (get_set_index a)).lines (victimWay c a)).dirty = true ∧
      ((c'.sets (get_set_index a)).lines (victimWay c a)).tag = get_tag a ∧
      ((c'.sets (get_set_index a)).lines (victimWay c a)).data
        = updf (victimLine c a).data (get_offset a) v ∧
      (∀ w', w' ≠ victimWay c a → (c'.sets (get_set_index a)).lines w'
        = (c.sets (get_set_index a)).lines w') ∧
      c'.stats.misses = c.stats.misses + 1 ∧
      c'.stats.hits = c.stats.hits ∧
      (¬((victimLine c a).valid = true ∧ (victimLine c a).dirty = true) →
        m' = m ∧ c'.stats.writebacks = c.stats.writebacks) ∧
      (((victimLine c a).valid = true ∧ (victimLine c a).dirty = true) →
        c'.stats.writebacks = c.stats.writebacks + 1 ∧
        ∀ x, m'.data x = if victimBase c a ≤ x ∧ x < victimBase c a + 32
          then (victimLine c a).data (x - victimBase c a) % 256
          else m.data x) := by
  have hfl : c.find_line (get_set_index a) (get_tag a) = none := by
    rw [find_line_eq]
    unfold Cache.lookup at hnone
    rw [hnone]
    rfl
  have hw4 : c.select_lru_line (get_set_index a) < 4 := select_lru_lt4 c _
  unfold victimBase victimLine victimWay at hWB ⊢
  by_cases hvd : ((c.sets (get_set_index a)).lines
        (c.select_lru_line (get_set_index a))).valid = true ∧
      ((c.sets (get_set_index a)).lines
        (c.select_lru_line (get_set_index a))).dirty = true
  · obtain ⟨m₁, hm₁, hsz₁, hdata₁⟩ :=
      writeback_line_dirty (missCounted c) m (get_set_index a)
        (c.select_lru_line (get_set_index a))
        (by rw [missCounted_sets]; exact hvd.2)
        (by rw [missCounted_sets]; exact hWB hvd.1 hvd.2)
    rw [missCounted_sets] at hdata₁
    obtain ⟨hp1, hp2, hp3, hp4, hp5, hp6, hp7, hp8⟩ :=
      allocWrite_props c { missCounted c with stats :=
          { (missCounted c).stats with
            writebacks := (missCounted c).stats.writebacks + 1 } } a v hnone rfl
        (c.select_lru_line (get_set_index a)) hw4
    refine ⟨_, m₁, ?_, hsz₁, hp1, hp7, hp2, hp3, hp4, hp5, hp6,
      by rw [hp8]; rfl, by rw [hp8]; rfl, fun h => absurd hvd h,
      fun _ => ⟨by rw [hp8]; rfl, hdata₁⟩⟩
    simp only [Cache.write_byte, hfl, missCounted_sets, missCounted_select]
    rw [if_pos hvd, hm₁]
    rfl
  · obtain ⟨hp1, hp2, hp3, hp4, hp5, hp6, hp7, hp8⟩ :=
      allocWrite_props c (missCounted c) a v hnone rfl
        (c.select_lru_line (get_set_index a)) hw4
    refine ⟨_, m, ?_, rfl, hp1, hp7, hp2, hp3, hp4, hp5, hp6,
      by rw [hp8]; rfl, by rw [hp8]; rfl, fun _ => ⟨rfl, by rw [hp8]; rfl⟩,
      fun h => absurd h hvd⟩
    simp only [Cache.write_byte, hfl, missCounted_sets, missCounted_select]
    rw [if_neg hvd]

theorem load_line_ok (c : Cache) (m : Memory) (si w tg : Nat)
    (hb : (tg * 64 + si) * 32 + 31 < m.size) :
    ∃ c₃ d', c.load_line m si w tg = .ok c₃ ∧
      c₃.stats = c.stats ∧
      (∀ si', si' ≠ si → c₃.sets si' = c.sets si') ∧
      (∀ w', w' ≠ w → (c₃.sets si).lines w' = (c.sets si).lines w') ∧
      (c₃.sets si).lines w = CacheLine.mk true false tg d' c.access_counter ∧
      (∀ j, j < 32 → d' j = m.data ((tg * 64 + si) * 32 + j)) := by
  obtain ⟨d', hd', hdata⟩ :=
    loadBytes_ok ((tg * 64 + si) * 32) 32 m ((c.sets si).lines w).data 0
      (by intro j hj; omega)
  refine ⟨{ c with
      sets := updf c.sets si (CacheSet.mk (updf (c.sets si).lines w
        (CacheLine.mk true false tg d' c.access_counter))),
      access_counter := c.access_counter + 1 }, d', ?_, rfl, ?_, ?_, ?_, ?_⟩
  · simp only [Cache.load_line]
    rw [hd']
  · intro si' hsi
    simp [updf, hsi]
  · intro w' hw'
    simp [updf, hw']
  · simp [updf]
  · intro j hj
    rw [hdata j, if_pos (by omega)]

set_option maxHeartbeats 1000000 in
theorem read_byte_miss (c : Cache) (m : Memory) (a : Nat)
    (hnone : c.lookup a = none)
    (hWB : (victimLine c a).valid = true → (victimLine c a).dirty = true →
      victimBase c a + 31 < m.size)
    (hload : a / 32 * 32 + 31 < m.size) :
    ∃ c' m', Cache.read_byte c m a = .ok (m'.data a, c', m') ∧
      m'.size = m.size ∧
      (∀ si', si' ≠ get_set_index a → c'.sets si' = c.sets si') ∧
      (∀ w', w' ≠ victimWay c a → (c'.sets (get_set_index a)).lines w'
        = (c.sets (get_set_index a)).lines w') ∧
      ((c'.sets (get_set_index a)).lines (victimWay c a)).valid = true ∧
      ((c'.sets (get_set_index a)).lines (victimWay c a)).dirty = false ∧
      ((c'.sets (get_set_index a)).lines (victimWay c a)).tag = get_tag a ∧
      (∀ j, j < 32 → ((c'.sets (get_set_index a)).lines (victimWay c a)).data j
        = m'.data (a / 32 * 32 + j)) ∧
      (∀ a', get_set_index a' = get_set_index a → get_tag a' = get_tag a →
        cachedByte c' a' = some (m'.data a')) ∧
      c'.stats.misses = c.stats.misses + 1 ∧
      c'.stats.hits = c.stats.hits ∧
      (¬((victimLine c a).valid = true ∧ (victimLine c a).dirty = true) →
        m' = m ∧ c'.stats.writebacks = c.stats.writebacks) ∧
      (((victimLine c a).valid = true ∧ (victimLine c a).dirty = true) →
        c'.stats.writebacks = c.stats.writebacks + 1 ∧
        ∀ x, m'.data x = if victimBase c a ≤ x ∧ x < victimBase c a + 32
          then (victimLine c a).data (x - victimBase c a) % 256
          else m.data x) := by
  have hfl : c.find_line (get_set_index a) (get_tag a) = none := by
    rw [find_line_eq]
    unfold Cache.lookup at hnone
    rw [hnone]
    rfl
  have hw4 : c.select_lru_line (get_set_index a) < 4 := select_lru_lt4 c _
  have hbase : (get_tag a * 64 + get_set_index a) * 32 = a / 32 * 32 := by
    unfold get_tag get_set_index
    omega
  have hoff : a / 32 * 32 + get_offset a = a := by
    unfold get_offset
    omega
  unfold victimBase victimLine victimWay at hWB ⊢
  by_cases hvd : ((c.sets (get_set_index a)).lines
        (c.select_lru_line (get_set_index a))).valid = true ∧
      ((c.sets (get_set_index a)).lines
        (c.select_lru_line (get_set_index a))).dirty = true
  · obtain ⟨m₁, hm₁, hsz₁, hdata₁⟩ :=
      writeback_line_dirty (missCounted c) m (get_set_index a)
        (c.select_lru_line (get_set_index a))
        (by rw [missCounted_sets]; exact hvd.2)
        (by rw [missCounted_sets]; exact hWB hvd.1 hvd.2)
    rw [missCounted_sets] at hdata₁
    obtain ⟨c₃, d', hld, hst, hsets', hways', hline, hbytes⟩ :=
      load_line_ok { missCounted c with stats :=
          { (missCounted c).stats with
            writebacks := (missCounted c).stats.writebacks + 1 } } m₁
        (get_set_index a) (c.select_lru_line (get_set_index a)) (get_tag a)
        (by rw [hbase]; omega)
    rw [missCounted_sets] at hsets' hways'
    have hlkc : ∀ a', get_set_index a' = get_set_index a →
        get_tag a' = get_tag a → Cache.lookup c₃ a'
          = some (c.select_lru_line (get_set_index a)) := by
      intro a' hsi' htg'
      unfold Cache.lookup
      rw [hsi', htg']
      have hshape : c₃.sets (get_set_index a)
          = CacheSet.mk (updf ((c.sets (get_set_index a)).lines)
              (c.select_lru_line (get_set_index a))
              ((c₃.sets (get_set_index a)).lines
                (c.select_lru_line (get_set_index a)))) := by
        apply congrArg CacheSet.mk
        funext w'
        by_cases hww : w' = c.select_lru_line (get_set_index a)
        · subst hww
          rw [updf_same]
        · rw [updf_ne _ _ _ _ hww, hways' w' hww]
      rw [hshape]
      exact findWay_alloc _ _ _ hw4 hnone _ (by rw [hline]) (by rw [hline])
    have hdja : ∀ a', get_set_index a' = get_set_index a →
        get_tag a' = get_tag a → a / 32 * 32 + get_offset a' = a' := by
      intro a' hsi' htg'
      unfold get_set_index at hsi'
      unfold get_tag at htg'
      unfold get_offset
      omega
    have hbyte : ∀ a', get_set_index a' = get_set_index a →
        get_tag a' = get_tag a →
        cachedByte c₃ a' = some (m₁.data a') := by
      intro a' hsi' htg'
      unfold cachedByte
      rw [hlkc a' hsi' htg']
      show some _ = some _
      rw [hsi', hline]
      show some (d' (get_offset a')) = some (m₁.data a')
      rw [hbytes (get_offset a') (by unfold get_offset; omega)]
      rw [hbase, hdja a' hsi' htg']
    have hb2 : ((c₃.sets (get_set_index a)).lines
        (c.select_lru_line (get_set_index a))).data (get_offset a)
        = m₁.data a := by
      rw [hline]
      show d' (get_offset a) = m₁.data a
      rw [hbytes (get_offset a) (by unfold get_offset; omega), hbase, hoff]
    refine ⟨c₃, m₁, ?_, hsz₁, hsets', hways', by rw [hline], by rw [hline],
      by rw [hline], ?_, hbyte, by rw [hst]; rfl, by rw [hst]; rfl,
      fun h => absurd hvd h, fun _ => ⟨by rw [hst]; rfl, hdata₁⟩⟩
    · simp only [Cache.read_byte, hfl, missCounted_sets, missCounted_select]
      rw [if_pos hvd, hm₁]
      show (match Cache.load_line { missCounted c with stats :=
            { (missCounted c).stats with
              writebacks := (missCounted c).stats.writebacks + 1 } } m₁
            (get_set_index a) (c.select_lru_line (get_set_index a))
            (get_tag a) with
        | Except.error e => Except.error e
        | Except.ok c₄ => Except.ok (((c₄.sets (get_set_index a)).lines
            (c.select_lru_line (get_set_index a))).data (get_offset a),
            c₄, m₁)) = Except.ok (m₁.data a, c₃, m₁)
      rw [hld]
      show Except.ok (((c₃.sets (get_set_index a)).lines
          (c.select_lru_line (get_set_index a))).data (get_offset a), c₃, m₁)
        = Except.ok (m₁.data a, c₃, m₁)
      rw [hb2]
    · intro j hj
      rw [hline]
      show d' j = m₁.data (a / 32 * 32 + j)
      rw [hbytes j hj, hbase]
  · obtain ⟨c₃, d', hld, hst, hsets', hways', hline, hbytes⟩ :=
      load_line_ok (missCounted c) m (get_set_index a)
        (c.select_lru_line (get_set_index a)) (get_tag a)
        (by rw [hbase]; omega)
    rw [missCounted_sets] at hsets' hways'
    have hlkc : ∀ a', get_set_index a' = get_set_index a →
        get_tag a' = get_tag a → Cache.lookup c₃ a'
          = some (c.select_lru_line (get_set_index a)) := by
      intro a' hsi' htg'
      unfold Cache.lookup
      rw [hsi', htg']
      have hshape : c₃.sets (get_set_index a)
          = CacheSet.mk (updf ((c.sets (get_set_index a)).lines)
              (c.select_lru_line (get_set_index a))
              ((c₃.sets (get_set_index a)).lines
                (c.select_lru_line (get_set_index a)))) := by
        apply congrArg CacheSet.mk
        funext w'
        by_cases hww : w' = c.select_lru_line (get_set_index a)
        · subst hww
          rw [updf_same]
        · rw [updf_ne _ _ _ _ hww, hways' w' hww]
      rw [hshape]
      exact findWay_alloc _ _ _ hw4 hnone _ (by rw [hline]) (by rw [hline])
    have hdja : ∀ a', get_set_index a' = get_set_index a →
        get_tag a' = get_tag a → a / 32 * 32 + get_offset a' = a' := by
      intro a' hsi' htg'
      unfold get_set_index at hsi'
      unfold get_tag at htg'
      unfold get_offset
      omega
    have hbyte : ∀ a', get_set_index a' = get_set_index a →
        get_tag a' = get_tag a →
        cachedByte c₃ a' = some (m.data a') := by
      intro a' hsi' htg'
      unfold cachedByte
      rw [hlkc a' hsi' htg']
      show some _ = some _
      rw [hsi', hline]
      show some (d' (get_offset a')) = some (m.data a')
      rw [hbytes (get_offset a') (by unfold get_offset; omega)]
      rw [hbase, hdja a' hsi' htg']
    have hb2 : ((c₃.sets (get_set_index a)).lines
        (c.select_lru_line (get_set_index a))).data (get_offset a)
        = m.data a := by
      rw [hline]
      show d' (get_offset a) = m.data a
      rw [hbytes (get_offset a) (by unfold get_offset; omega), hbase, hoff]
    refine ⟨c₃, m, ?_, rfl, hsets', hways', by rw [hline], by rw [hline],
      by rw [hline], ?_, hbyte, by rw [hst]; rfl, by rw [hst]; rfl,
      fun _ => ⟨rfl, by rw [hst]; rfl⟩, fun h => absurd h hvd⟩
    · simp only [Cache.read_byte, hfl, missCounted_sets, missCounted_select]
      rw [if_neg hvd]
      show (match Cache.load_line (missCounted c) m
            (get_set_index a) (c.select_lru_line (get_set_index a))
            (get_tag a) with
        | Except.error e => Except.error e
        | Except.ok c₄ => Except.ok (((c₄.sets (get_set_index a)).lines
            (c.select_lru_line (get_set_index a))).data (get_offset a),
            c₄, m)) = Except.ok (m.data a, c₃, m)
      rw [hld]
      show Except.ok (((c₃.sets (get_set_index a)).lines
          (c.select_lru_line (get_set_index a))).data (get_offset a), c₃, m)
        = Except.ok (m.data a, c₃, m)
      rw [hb2]
    · intro j hj
      rw [hline]
      show d' j = m.data (a / 32 * 32 + j)
      rw [hbytes j hj, hbase]

theorem word_assemble (v : Nat) (hv : v < 2 ^ 32) :
    ((v / 2 ^ 24 % 256) <<< 24) ||| ((v / 2 ^ 16 % 256) <<< 16) |||
      ((v / 2 ^ 8 % 256) <<< 8) ||| (v % 256) = v := by
  have h256 : (256 : Nat) = 2 ^ 8 := rfl
  rw [h256]
  rw [← Nat.shiftRight_eq_div_pow, ← Nat.shiftRight_eq_div_pow,
    ← Nat.shiftRight_eq_div_pow]
  apply Nat.eq_of_testBit_eq
  intro i
  simp only [Nat.testBit_or, Nat.testBit_shiftLeft, Nat.testBit_mod_two_pow,
    Nat.testBit_shiftRight]
  rcases Nat.lt_or_ge i 8 with h8 | h8
  · have e1 : ¬(8 ≤ i) := by omega
    have e2 : ¬(16 ≤ i) := by omega
    have e3 : ¬(24 ≤ i) := by omega
    simp [e1, e2, e3, h8]
  · rcases Nat.lt_or_ge i 16 with h16 | h16
    · have e1 : ¬(16 ≤ i) := by omega
      have e2 : ¬(24 ≤ i) := by omega
      have e3 : ¬(i < 8) := by omega
      have e4 : i - 8 < 8 := by omega
      have e5 : 8 + (i - 8) = i := by omega
      simp [e1, e2, e3, e4, e5, h8]
    · rcases Nat.lt_or_ge i 24 with h24 | h24
      · have e1 : ¬(24 ≤ i) := by omega
        have e2 : ¬(i < 8) := by omega
        have e3 : ¬(i - 8 < 8) := by omega
        have e4 : i - 16 < 8 := by omega
        have e5 : 16 + (i - 16) = i := by omega
        simp [e1, e2, e3, e4, e5, h8, h16]
      · rcases Nat.lt_or_ge i 32 with h32 | h32
        · have e1 : ¬(i < 8) := by omega
          have e2 : ¬(i - 8 < 8) := by omega
          have e3 : ¬(i - 16 < 8) := by omega
          have e4 : i - 24 < 8 := by omega
          have e5 : 24 + (i - 24) = i := by omega
          simp [e1, e2, e3, e4, e5, h8, h16, h24]
        · have e1 : ¬(i < 8) := by omega
          have e2 : ¬(i - 8 < 8) := by omega
          have e3 : ¬(i - 16 < 8) := by omega
          have e4 : ¬(i - 24 < 8) := by omega
          have e5 : v.testBit i = false := by
            apply Nat.testBit_lt_two_pow
            calc v < 2 ^ 32 := hv
              _ ≤ 2 ^ i := Nat.pow_le_pow_right (by omega) h32
          simp [e1, e2, e3, e4, e5]

theorem word_assemble_le (v : Nat) (hv : v < 2 ^ 32) :
    (v % 256) ||| ((v / 2 ^ 8 % 256) <<< 8) ||| ((v / 2 ^ 16 % 256) <<< 16) |||
      ((v / 2 ^ 24 % 256) <<< 24) = v := by
  have h256 : (256 : Nat) = 2 ^ 8 := rfl
  rw [h256]
  rw [← Nat.shiftRight_eq_div_pow, ← Nat.shiftRight_eq_div_pow,
    ← Nat.shiftRight_eq_div_pow]
  apply Nat.eq_of_testBit_eq
  intro i
  simp only [Nat.testBit_or, Nat.testBit_shiftLeft, Nat.testBit_mod_two_pow,
    Nat.testBit_shiftRight]
  rcases Nat.lt_or_ge i 8 with h8 | h8
  · have e1 : ¬(8 ≤ i) := by omega
    have e2 : ¬(16 ≤ i) := by omega
    have e3 : ¬(24 ≤ i) := by omega
    simp [e1, e2, e3, h8]
  · rcases Nat.lt_or_ge i 16 with h16 | h16
    · have e1 : ¬(16 ≤ i) := by omega
      have e2 : ¬(24 ≤ i) := by omega
      have e3 : ¬(i < 8) := by omega
      have e4 : i - 8 < 8 := by omega
      have e5 : 8 + (i - 8) = i := by omega
      simp [e1, e2, e3, e4, e5, h8]
    · rcases Nat.lt_or_ge i 24 with h24 | h24
      · have e1 : ¬(24 ≤ i) := by omega
        have e2 : ¬(i < 8) := by omega
        have e3 : ¬(i - 8 < 8) := by omega
        have e4 : i - 16 < 8 := by omega
        have e5 : 16 + (i - 16) = i := by omega
        simp [e1, e2, e3, e4, e5, h8, h16]
      · rcases Nat.lt_or_ge i 32 with h32 | h32
        · have e1 : ¬(i < 8) := by omega
          have e2 : ¬(i - 8 < 8) := by omega
          have e3 : ¬(i - 16 < 8) := by omega
          have e4 : i - 24 < 8 := by omega
          have e5 : 24 + (i - 24) = i := by omega
          simp [e1, e2, e3, e4, e5, h8, h16, h24]
        · have e1 : ¬(i < 8) := by omega
          have e2 : ¬(i - 8 < 8) := by omega
          have e3 : ¬(i - 16 < 8) := by omega
          have e4 : ¬(i - 24 < 8) := by omega
          have e5 : v.testBit i = false := by
            apply Nat.testBit_lt_two_pow
            calc v < 2 ^ 32 := hv
              _ ≤ 2 ^ i := Nat.pow_le_pow_right (by omega) h32
          simp [e1, e2, e3, e4, e5]

theorem lookup_same_line (c : Cache) (x x' : Nat)
    (hsi : get_set_index x' = get_set_index x)
    (htg : get_tag x' = get_tag x) :
    c.lookup x' = c.lookup x := by
  unfold Cache.lookup
  rw [hsi, htg]

theorem write_byte_total (c' : Cache) (m' : Memory) (x bv : Nat)
    (hWB : (victimLine c' x).valid = true → (victimLine c' x).dirty = true →
      victimBase c' x + 31 < m'.size) :
    ∃ c'' m'', Cache.write_byte c' m' x bv = .ok (c'', m'') ∧
      m''.size = m'.size ∧
      (∀ si', si' ≠ get_set_index x → c''.sets si' = c'.sets si') ∧
      cachedByte c'' x = some bv ∧
      (∀ x' y, get_set_index x' = get_set_index x → get_tag x' = get_tag x →
        get_offset x' ≠ get_offset x → cachedByte c' x' = some y →
        cachedByte c'' x' = some y) := by
  cases hlk : c'.lookup x with
  | some w =>
    obtain ⟨heq, hvt, hsets, hcb, hpres⟩ := write_byte_hit c' m' x bv w hlk
    exact ⟨_, m', heq, rfl, hsets, hcb,
      fun x' y hsi htg hoff hy => by rw [hpres x' hsi htg hoff]; exact hy⟩
  | none =>
    obtain ⟨c'', m'', heq, hsz, hsets, hcb, _, _, _, _, _, _, _, _⟩ :=
      write_byte_miss c' m' x bv hlk hWB
    refine ⟨c'', m'', heq, hsz, hsets, hcb, ?_⟩
    intro x' y hsi htg hoff hy
    have : c'.lookup x' = none := by
      rw [lookup_same_line c' x x' hsi htg, hlk]
    unfold cachedByte at hy
    rw [this] at hy
    simp at hy

theorem write_byte_cached (c' : Cache) (m' : Memory) (x bv : Nat)
    (hcb : ∃ y₀, cachedByte c' x = some y₀) :
    ∃ c'', Cache.write_byte c' m' x bv = .ok (c'', m') ∧
      (∀ si', si' ≠ get_set_index x → c''.sets si' = c'.sets si') ∧
      cachedByte c'' x = some bv ∧
      (∀ x' y, get_set_index x' = get_set_index x → get_tag x' = get_tag x →
        get_offset x' ≠ get_offset x → cachedByte c' x' = some y →
        cachedByte c'' x' = some y) := by
  obtain ⟨y₀, hcb⟩ := hcb
  have hlk : ∃ w, c'.lookup x = some w := by
    unfold cachedByte at hcb
    cases h : c'.lookup x with
    | none => rw [h] at hcb; simp at hcb
    | some w => exact ⟨w, rfl⟩
  obtain ⟨w, hw⟩ := hlk
  obtain ⟨heq, hvt, hsets, hcb', hpres⟩ := write_byte_hit c' m' x bv w hw
  exact ⟨_, heq, hsets, hcb',
    fun x' y hsi htg hoff hy => by rw [hpres x' hsi htg hoff]; exact hy⟩

theorem read_word_of_hits (c : Cache) (m : Memory) (a : Nat)
    (b0 b1 b2 b3 : Nat) (ha : a + 3 < m.size)
    (h0 : cachedByte c a = some b0) (h1 : cachedByte c (a + 1) = some b1)
    (h2 : cachedByte c (a + 2) = some b2)
    (h3 : cachedByte c (a + 3) = some b3) :
    ∃ c', Cache.read_word c m a
      = .ok ((b3 <<< 24) ||| (b2 <<< 16) ||| (b1 <<< 8) ||| b0, c', m) := by
  have hlk0 : ∃ w, c.lookup a = some w := by
    unfold cachedByte at h0
    cases h : c.lookup a with
    | none => rw [h] at h0; simp at h0
    | some w => exact ⟨w, rfl⟩
  obtain ⟨w0, hw0⟩ := hlk0
  obtain ⟨he0, hsl0, _, _, _, hcb0⟩ := read_byte_hit c m a w0 hw0
  have hb0 : ((c.sets (get_set_index a)).lines w0).data (get_offset a) = b0 := by
    rw [hcb0] at h0
    exact (Option.some.injEq _ _).mp h0
  rw [hb0] at he0
  have hpres0 := fun a' => SameLines_cachedByte _ _ hsl0 a'
  set c₁ := hitReadCache c (get_set_index a) w0 with hc₁
  have h1' : cachedByte c₁ (a + 1) = some b1 := by rw [hpres0]; exact h1
  have h2' : cachedByte c₁ (a + 2) = some b2 := by rw [hpres0]; exact h2
  have h3' : cachedByte c₁ (a + 3) = some b3 := by rw [hpres0]; exact h3
  have hlk1 : ∃ w, c₁.lookup (a + 1) = some w := by
    unfold cachedByte at h1'
    cases h : c₁.lookup (a + 1) with
    | none => rw [h] at h1'; simp at h1'
    | some w => exact ⟨w, rfl⟩
  obtain ⟨w1, hw1⟩ := hlk1
  obtain ⟨he1, hsl1, _, _, _, hcb1⟩ := read_byte_hit c₁ m (a + 1) w1 hw1
  have hb1 : ((c₁.sets (get_set_index (a + 1))).lines w1).data
      (get_offset (a + 1)) = b1 := by
    rw [hcb1] at h1'
    exact (Option.some.injEq _ _).mp h1'
  rw [hb1] at he1
  have hpres1 := fun a' => SameLines_cachedByte _ _ hsl1 a'
  set c₂ := hitReadCache c₁ (get_set_index (a + 1)) w1 with hc₂
  have h2'' : cachedByte c₂ (a + 2) = some b2 := by rw [hpres1]; exact h2'
  have h3'' : cachedByte c₂ (a + 3) = some b3 := by rw [hpres1]; exact h3'
  have hlk2 : ∃ w, c₂.lookup (a + 2) = some w := by
    unfold cachedByte at h2''
    cases h : c₂.lookup (a + 2) with
    | none => rw [h] at h2''; simp at h2''
    | some w => exact ⟨w, rfl⟩
  obtain ⟨w2, hw2⟩ := hlk2
  obtain ⟨he2, hsl2, _, _, _, hcb2⟩ := read_byte_hit c₂ m (a + 2) w2 hw2
  have hb2 : ((c₂.sets (get_set_index (a + 2))).lines w2).data
      (get_offset (a + 2)) = b2 := by
    rw [hcb2] at h2''
    exact (Option.some.injEq _ _).mp h2''
  rw [hb2] at he2
  have hpres2 := fun a' => SameLines_cachedByte _ _ hsl2 a'
  set c₃ := hitReadCache c₂ (get_set_index (a + 2)) w2 with hc₃
  have h3''' : cachedByte c₃ (a + 3) = some b3 := by rw [hpres2]; exact h3''
  have hlk3 : ∃ w, c₃.lookup (a + 3) = some w := by
    unfold cachedByte at h3'''
    cases h : c₃.lookup (a + 3) with
    | none => rw [h] at h3'''; simp at h3'''
    | some w => exact ⟨w, rfl⟩
  obtain ⟨w3, hw3⟩ := hlk3
  obtain ⟨he3, hsl3, _, _, _, hcb3⟩ := read_byte_hit c₃ m (a + 3) w3 hw3
  have hb3 : ((c₃.sets (get_set_index (a + 3))).lines w3).data
      (get_offset (a + 3)) = b3 := by
    rw [hcb3] at h3'''
    exact (Option.some.injEq _ _).mp h3'''
  rw [hb3] at he3
  refine ⟨hitReadCache c₃ (get_set_index (a + 3)) w3, ?_⟩
  unfold Cache.read_word
  rw [if_neg (by omega)]
  simp only [he0, he1, he2, he3]

theorem cachedByte_some_line (c : Cache) (x x' : Nat)
    (hsi : get_set_index x' = get_set_index x)
    (htg : get_tag x' = get_tag x)
    (h : ∃ y, cachedByte c x = some y) :
    ∃ y', cachedByte c x' = some y' := by
  obtain ⟨y, hy⟩ := h
  unfold cachedByte at hy ⊢
  rw [lookup_same_line c x x' hsi htg]
  cases hl : c.lookup x with
  | none => rw [hl] at hy; simp at hy
  | some w => exact ⟨_, rfl⟩

theorem victim_hyp_of_wf (c c' : Cache) (m m' : Memory) (x : Nat)
    (hwf : CacheWF c m)
    (hsets : c'.sets (get_set_index x) = c.sets (get_set_index x))
    (hsz : m'.size = m.size) :
    (victimLine c' x).valid = true → (victimLine c' x).dirty = true →
      victimBase c' x + 31 < m'.size := by
  intro hv hd
  unfold victimLine victimWay at hv hd
  unfold victimBase victimLine victimWay
  have hsel : c'.select_lru_line (get_set_index x)
      = c.select_lru_line (get_set_index x) := by
    unfold Cache.select_lru_line
    rw [hsets]
    exact selectLruFrom_sets_congr c c' _ hsets _ _ _
  rw [hsel, hsets] at hv hd ⊢
  rw [hsz]
  exact hwf _ _ (select_lru_lt4 c _) hv hd

theorem cache_wrw_case1 (c : Cache) (m : Memory) (a v : Nat)
    (ha : a + 3 < m.size) (hv : v < 2 ^ 32) (hwf : CacheWF c m)
    (hcase : a % 32 ≤ 28) :
    ∃ c₁ m₁ c₂ m₂, Cache.write_word c m a v = .ok (c₁, m₁) ∧
      Cache.read_word c₁ m₁ a = .ok (v, c₂, m₂) := by
  obtain ⟨c₁, m₁, he0, hsz1, hsets1, hcb1, hpres1⟩ :=
    write_byte_total c m a (v % 256) (victim_hyp_of_wf c c m m a hwf rfl rfl)
  have r1 : get_set_index (a + 1) = get_set_index a ∧
      get_tag (a + 1) = get_tag a ∧ get_offset (a + 1) ≠ get_offset a := by
    unfold get_set_index get_tag get_offset
    refine ⟨by omega, by omega, by omega⟩
  have r2 : get_set_index (a + 2) = get_set_index a ∧
      get_tag (a + 2) = get_tag a ∧ get_offset (a + 2) ≠ get_offset a := by
    unfold get_set_index get_tag get_offset
    refine ⟨by omega, by omega, by omega⟩
  have r3 : get_set_index (a + 3) = get_set_index a ∧
      get_tag (a + 3) = get_tag a ∧ get_offset (a + 3) ≠ get_offset a := by
    unfold get_set_index get_tag get_offset
    refine ⟨by omega, by omega, by omega⟩
  have r21 : get_set_index (a + 2) = get_set_index (a + 1) ∧
      get_tag (a + 2) = get_tag (a + 1) ∧
      get_offset (a + 2) ≠ get_offset (a + 1) := by
    unfold get_set_index get_tag get_offset
    refine ⟨by omega, by omega, by omega⟩
  have r31 : get_set_index (a + 3) = get_set_index (a + 1) ∧
      get_tag (a + 3) = get_tag (a + 1) ∧
      get_offset (a + 3) ≠ get_offset (a + 1) := by
    unfold get_set_index get_tag get_offset
    refine ⟨by omega, by omega, by omega⟩
  have r32 : get_set_index (a + 3) = get_set_index (a + 2) ∧
      get_tag (a + 3) = get_tag (a + 2) ∧
      get_offset (a + 3) ≠ get_offset (a + 2) := by
    unfold get_set_index get_tag get_offset
    refine ⟨by omega, by omega, by omega⟩
  obtain ⟨c₂, he1, hsets2, hcb2, hpres2⟩ :=
    write_byte_cached c₁ m₁ (a + 1) (v / 2 ^ 8 % 256)
      (cachedByte_some_line c₁ a (a + 1) r1.1 r1.2.1 ⟨_, hcb1⟩)
  obtain ⟨c₃, he2, hsets3, hcb3, hpres3⟩ :=
    write_byte_cached c₂ m₁ (a + 2) (v / 2 ^ 16 % 256)
      (cachedByte_some_line c₂ (a + 1) (a + 2) r21.1 r21.2.1 ⟨_, hcb2⟩)
  obtain ⟨c₄, he3, hsets4, hcb4, hpres4⟩ :=
    write_byte_cached c₃ m₁ (a + 3) (v / 2 ^ 24 % 256)
      (cachedByte_some_line c₃ (a + 2) (a + 3) r32.1 r32.2.1 ⟨_, hcb3⟩)
  have hA1 : cachedByte c₂ a = some (v % 256) :=
    hpres2 a _ r1.1.symm r1.2.1.symm (Ne.symm r1.2.2) hcb1
  have hA2 : cachedByte c₃ a = some (v % 256) :=
    hpres3 a _ r2.1.symm r2.2.1.symm (Ne.symm r2.2.2) hA1
  have hA3 : cachedByte c₄ a = some (v % 256) :=
    hpres4 a _ r3.1.symm r3.2.1.symm (Ne.symm r3.2.2) hA2
  have hB2 : cachedByte c₃ (a + 1) = some (v / 2 ^ 8 % 256) :=
    hpres3 (a + 1) _ r21.1.symm r21.2.1.symm (Ne.symm r21.2.2) hcb2
  have hB3 : cachedByte c₄ (a + 1) = some (v / 2 ^ 8 % 256) :=
    hpres4 (a + 1) _ r31.1.symm r31.2.1.symm (Ne.symm r31.2.2) hB2
  have hC3 : cachedByte c₄ (a + 2) = some (v / 2 ^ 16 % 256) :=
    hpres4 (a + 2) _ r32.1.symm r32.2.1.symm (Ne.symm r32.2.2) hcb3
  have hww : Cache.write_word c m a v = .ok (c₄, m₁) := by
    unfold Cache.write_word
    rw [if_neg (by omega)]
    simp only [he0, he1, he2, he3]
  obtain ⟨c₅, hr⟩ := read_word_of_hits c₄ m₁ a (v % 256) (v / 2 ^ 8 % 256)
    (v / 2 ^ 16 % 256) (v / 2 ^ 24 % 256) (by rw [hsz1]; exact ha)
    hA3 hB3 hC3 hcb4
  rw [word_assemble v hv] at hr
  exact ⟨c₄, m₁, c₅, m₁, hww, hr⟩

theorem cache_wrw_case2 (c : Cache) (m : Memory) (a v : Nat)
    (ha : a + 3 < m.size) (hv : v < 2 ^ 32) (hwf : CacheWF c m)
    (hcase : a % 32 = 29) :
    ∃ c₁ m₁ c₂ m₂, Cache.write_word c m a v = .ok (c₁, m₁) ∧
      Cache.read_word c₁ m₁ a = .ok (v, c₂, m₂) := by
  obtain ⟨c₁, m₁, he0, hsz1, hsets1, hcb1, hpres1⟩ :=
    write_byte_total c m a (v % 256) (victim_hyp_of_wf c c m m a hwf rfl rfl)
  have r1 : get_set_index (a + 1) = get_set_index a ∧
      get_tag (a + 1) = get_tag a ∧ get_offset (a + 1) ≠ get_offset a := by
    unfold get_set_index get_tag get_offset
    refine ⟨by omega, by omega, by omega⟩
  have r2 : get_set_index (a + 2) = get_set_index a ∧
      get_tag (a + 2) = get_tag a ∧ get_offset (a + 2) ≠ get_offset a := by
    unfold get_set_index get_tag get_offset
    refine ⟨by omega, by omega, by omega⟩
  have r21 : get_set_index (a + 2) = get_set_index (a + 1) ∧
      get_tag (a + 2) = get_tag (a + 1) ∧
      get_offset (a + 2) ≠ get_offset (a + 1) := by
    unfold get_set_index get_tag get_offset
    refine ⟨by omega, by omega, by omega⟩
  have s3 : get_set_index (a + 3) ≠ get_set_index a := by
    unfold get_set_index
    omega
  have s31 : get_set_index (a + 3) ≠ get_set_index (a + 1) := by
    unfold get_set_index
    omega
  have s32 : get_set_index (a + 3) ≠ get_set_index (a + 2) := by
    unfold get_set_index
    omega
  obtain ⟨c₂, he1, hsets2, hcb2, hpres2⟩ :=
    write_byte_cached c₁ m₁ (a + 1) (v / 2 ^ 8 % 256)
      (cachedByte_some_line c₁ a (a + 1) r1.1 r1.2.1 ⟨_, hcb1⟩)
  obtain ⟨c₃, he2, hsets3, hcb3, hpres3⟩ :=
    write_byte_cached c₂ m₁ (a + 2) (v / 2 ^ 16 % 256)
      (cachedByte_some_line c₂ (a + 1) (a + 2) r21.1 r21.2.1 ⟨_, hcb2⟩)
  have hchain : c₃.sets (get_set_index (a + 3))
      = c.sets (get_set_index (a + 3)) := by
    rw [hsets3 _ s32, hsets2 _ s31, hsets1 _ s3]
  obtain ⟨c₄, m₄, he3, hsz4, hsets4, hcb4, hpres4⟩ :=
    write_byte_total c₃ m₁ (a + 3) (v / 2 ^ 24 % 256)
      (victim_hyp_of_wf c c₃ m m₁ (a + 3) hwf hchain hsz1)
  have hA1 : cachedByte c₂ a = some (v % 256) :=
    hpres2 a _ r1.1.symm r1.2.1.symm (Ne.symm r1.2.2) hcb1
  have hA2 : cachedByte c₃ a = some (v % 256) :=
    hpres3 a _ r2.1.symm r2.2.1.symm (Ne.symm r2.2.2) hA1
  have hA3 : cachedByte c₄ a = some (v % 256) := by
    rw [cachedByte_set_eq c₃ c₄ a (hsets4 _ (Ne.symm s3))]
    exact hA2
  have hB2 : cachedByte c₃ (a + 1) = some (v / 2 ^ 8 % 256) :=
    hpres3 (a + 1) _ r21.1.symm r21.2.1.symm (Ne.symm r21.2.2) hcb2
  have hB3 : cachedByte c₄ (a + 1) = some (v / 2 ^ 8 % 256) := by
    rw [cachedByte_set_eq c₃ c₄ (a + 1) (hsets4 _ (Ne.symm s31))]
    exact hB2
  have hC3 : cachedByte c₄ (a + 2) = some (v / 2 ^ 16 % 256) := by
    rw [cachedByte_set_eq c₃ c₄ (a + 2) (hsets4 _ (Ne.symm s32))]
    exact hcb3
  have hww : Cache.write_word c m a v = .ok (c₄, m₄) := by
    unfold Cache.write_word
    rw [if_neg (by omega)]
    simp only [he0, he1, he2, he3]
  obtain ⟨c₅, hr⟩ := read_word_of_hits c₄ m₄ a (v % 256) (v / 2 ^ 8 % 256)
    (v / 2 ^ 16 % 256) (v / 2 ^ 24 % 256) (by rw [hsz4, hsz1]; exact ha)
    hA3 hB3 hC3 hcb4
  rw [word_assemble v hv] at hr
  exact ⟨c₄, m₄, c₅, m₄, hww, hr⟩

theorem cache_wrw_case3 (c : Cache) (m : Memory) (a v : Nat)
    (ha : a + 3 < m.size) (hv : v < 2 ^ 32) (hwf : CacheWF c m)
    (hcase : a % 32 = 30) :
    ∃ c₁ m₁ c₂ m₂, Cache.write_word c m a v = .ok (c₁, m₁) ∧
      Cache.read_word c₁ m₁ a = .ok (v, c₂, m₂) := by
  obtain ⟨c₁, m₁, he0, hsz1, hsets1, hcb1, hpres1⟩ :=
    write_byte_total c m a (v % 256) (victim_hyp_of_wf c c m m a hwf rfl rfl)
  have r1 : get_set_index (a + 1) = get_set_index a ∧
      get_tag (a + 1) = get_tag a ∧ get_offset (a + 1) ≠ get_offset a := by
    unfold get_set_index get_tag get_offset
    refine ⟨by omega, by omega, by omega⟩
  have s2 : get_set_index (a + 2) ≠ get_set_index a := by
    unfold get_set_index
    omega
  have s21 : get_set_index (a + 2) ≠ get_set_index (a + 1) := by
    unfold get_set_index
    omega
  have s3 : get_set_index (a + 3) ≠ get_set_index a := by
    unfold get_set_index
    omega
  have s31 : get_set_index (a + 3) ≠ get_set_index (a + 1) := by
    unfold get_set_index
    omega
  have r32 : get_set_index (a + 3) = get_set_index (a + 2) ∧
      get_tag (a + 3) = get_tag (a + 2) ∧
      get_offset (a + 3) ≠ get_offset (a + 2) := by
    unfold get_set_index get_tag get_offset
    refine ⟨by omega, by omega, by omega⟩
  obtain ⟨c₂, he1, hsets2, hcb2, hpres2⟩ :=
    write_byte_cached c₁ m₁ (a + 1) (v / 2 ^ 8 % 256)
      (cachedByte_some_line c₁ a (a + 1) r1.1 r1.2.1 ⟨_, hcb1⟩)
  have hchain : c₂.sets (get_set_index (a + 2))
      = c.sets (get_set_index (a + 2)) := by
    rw [hsets2 _ s21, hsets1 _ s2]
  obtain ⟨c₃, m₃, he2, hsz3, hsets3, hcb3, hpres3⟩ :=
    write_byte_total c₂ m₁ (a + 2) (v / 2 ^ 16 % 256)
      (victim_hyp_of_wf c c₂ m m₁ (a + 2) hwf hchain hsz1)
  obtain ⟨c₄, he3, hsets4, hcb4, hpres4⟩ :=
    write_byte_cached c₃ m₃ (a + 3) (v / 2 ^ 24 % 256)
      (cachedByte_some_line c₃ (a + 2) (a + 3) r32.1 r32.2.1 ⟨_, hcb3⟩)
  have hA1 : cachedByte c₂ a = some (v % 256) :=
    hpres2 a _ r1.1.symm r1.2.1.symm (Ne.symm r1.2.2) hcb1
  have hA2 : cachedByte c₃ a = some (v % 256) := by
    rw [cachedByte_set_eq c₂ c₃ a (hsets3 _ (Ne.symm s2))]
    exact hA1
  have hA3 : cachedByte c₄ a = some (v % 256) := by
    rw [cachedByte_set_eq c₃ c₄ a (hsets4 _ (Ne.symm s3))]
    exact hA2
  have hB2 : cachedByte c₃ (a + 1) = some (v / 2 ^ 8 % 256) := by
    rw [cachedByte_set_eq c₂ c₃ (a + 1) (hsets3 _ (Ne.symm s21))]
    exact hcb2
  have hB3 : cachedByte c₄ (a + 1) = some (v / 2 ^ 8 % 256) := by
    rw [cachedByte_set_eq c₃ c₄ (a + 1) (hsets4 _ (Ne.symm s31))]
    exact hB2
  have hC3 : cachedByte c₄ (a + 2) = some (v / 2 ^ 16 % 256) :=
    hpres4 (a + 2) _ r32.1.symm r32.2.1.symm (Ne.symm r32.2.2) hcb3
  have hww : Cache.write_word c m a v = .ok (c₄, m₃) := by
    unfold Cache.write_word
    rw [if_neg (by omega)]
    simp only [he0, he1, he2, he3]
  obtain ⟨c₅, hr⟩ := read_word_of_hits c₄ m₃ a (v % 256) (v / 2 ^ 8 % 256)
    (v / 2 ^ 16 % 256) (v / 2 ^ 24 % 256) (by rw [hsz3, hsz1]; exact ha)
    hA3 hB3 hC3 hcb4
  rw [word_assemble v hv] at hr
  exact ⟨c₄, m₃, c₅, m₃, hww, hr⟩

theorem cache_wrw_case4 (c : Cache) (m : Memory) (a v : Nat)
    (ha : a + 3 < m.size) (hv : v < 2 ^ 32) (hwf : CacheWF c m)
    (hcase : a % 32 = 31) :
    ∃ c₁ m₁ c₂ m₂, Cache.write_word c m a v = .ok (c₁, m₁) ∧
      Cache.read_word c₁ m₁ a = .ok (v, c₂, m₂) := by
  obtain ⟨c₁, m₁, he0, hsz1, hsets1, hcb1, hpres1⟩ :=
    write_byte_total c m a (v % 256) (victim_hyp_of_wf c c m m a hwf rfl rfl)
  have s1 : get_set_index (a + 1) ≠ get_set_index a := by
    unfold get_set_index
    omega
  have s2 : get_set_index (a + 2) ≠ get_set_index a := by
    unfold get_set_index
    omega
  have s3 : get_set_index (a + 3) ≠ get_set_index a := by
    unfold get_set_index
    omega
  have r21 : get_set_index (a + 2) = get_set_index (a + 1) ∧
      get_tag (a + 2) = get_tag (a + 1) ∧
      get_offset (a + 2) ≠ get_offset (a + 1) := by
    unfold get_set_index get_tag get_offset
    refine ⟨by omega, by omega, by omega⟩
  have r31 : get_set_index (a + 3) = get_set_index (a + 1) ∧
      get_tag (a + 3) = get_tag (a + 1) ∧
      get_offset (a + 3) ≠ get_offset (a + 1) := by
    unfold get_set_index get_tag get_offset
    refine ⟨by omega, by omega, by omega⟩
  have r32 : get_set_index (a + 3) = get_set_index (a + 2) ∧
      get_tag (a + 3) = get_tag (a + 2) ∧
      get_offset (a + 3) ≠ get_offset (a + 2) := by
    unfold get_set_index get_tag get_offset
    refine ⟨by omega, by omega, by omega⟩
  have hchain : c₁.sets (get_set_index (a + 1))
      = c.sets (get_set_index (a + 1)) := hsets1 _ s1
  obtain ⟨c₂, m₂, he1, hsz2, hsets2, hcb2, hpres2⟩ :=
    write_byte_total c₁ m₁ (a + 1) (v / 2 ^ 8 % 256)
      (victim_hyp_of_wf c c₁ m m₁ (a + 1) hwf hchain hsz1)
  obtain ⟨c₃, he2, hsets3, hcb3, hpres3⟩ :=
    write_byte_cached c₂ m₂ (a + 2) (v / 2 ^ 16 % 256)
      (cachedByte_some_line c₂ (a + 1) (a + 2) r21.1 r21.2.1 ⟨_, hcb2⟩)
  obtain ⟨c₄, he3, hsets4, hcb4, hpres4⟩ :=
    write_byte_cached c₃ m₂ (a + 3) (v / 2 ^ 24 % 256)
      (cachedByte_some_line c₃ (a + 2) (a + 3) r32.1 r32.2.1 ⟨_, hcb3⟩)
  have hA1 : cachedByte c₂ a = some (v % 256) := by
    rw [cachedByte_set_eq c₁ c₂ a (hsets2 _ (Ne.symm s1))]
    exact hcb1
  have hA2 : cachedByte c₃ a = some (v % 256) := by
    rw [cachedByte_set_eq c₂ c₃ a (hsets3 _ (Ne.symm s2))]
    exact hA1
  have hA3 : cachedByte c₄ a = some (v % 256) := by
    rw [cachedByte_set_eq c₃ c₄ a (hsets4 _ (Ne.symm s3))]
    exact hA2
  have hB2 : cachedByte c₃ (a + 1) = some (v / 2 ^ 8 % 256) :=
    hpres3 (a + 1) _ r21.1.symm r21.2.1.symm (Ne.symm r21.2.2) hcb2
  have hB3 : cachedByte c₄ (a + 1) = some (v / 2 ^ 8 % 256) :=
    hpres4 (a + 1) _ r31.1.symm r31.2.1.symm (Ne.symm r31.2.2) hB2
  have hC3 : cachedByte c₄ (a + 2) = some (v / 2 ^ 16 % 256) :=
    hpres4 (a + 2) _ r32.1.symm r32.2.1.symm (Ne.symm r32.2.2) hcb3
  have hww : Cache.write_word c m a v = .ok (c₄, m₂) := by
    unfold Cache.write_word
    rw [if_neg (by omega)]
    simp only [he0, he1, he2, he3]
  obtain ⟨c₅, hr⟩ := read_word_of_hits c₄ m₂ a (v % 256) (v / 2 ^ 8 % 256)
    (v / 2 ^ 16 % 256) (v / 2 ^ 24 % 256) (by rw [hsz2, hsz1]; exact ha)
    hA3 hB3 hC3 hcb4
  rw [word_assemble v hv] at hr
  exact ⟨c₄, m₂, c₅, m₂, hww, hr⟩

theorem memory_write_read_word (m : Memory) (a v : Nat)
    (ha : a + 3 < m.size) (hv : v < 2 ^ 32) :
    ∃ m', m.write_word a v = .ok m' ∧ m'.read_word a = .ok v := by
  refine ⟨{ m with
    data := updf (updf (updf (updf m.data a (v % 256)) (a + 1) (v / 2 ^ 8 % 256)) (a + 2) (v / 2 ^ 16 % 256)) (a + 3) (v / 2 ^ 24 % 256) }, ?_, ?_⟩
  · unfold Memory.write_word
    rw [if_neg (by omega)]
  · unfold Memory.read_word
    rw [if_neg (show ¬(a + 3 ≥ m.size) by omega)]
    have b0 : updf (updf (updf (updf m.data a (v % 256)) (a + 1)
        (v / 2 ^ 8 % 256)) (a + 2) (v / 2 ^ 16 % 256)) (a + 3)
        (v / 2 ^ 24 % 256) a = v % 256 := by
      rw [updf_ne _ _ _ _ (by omega), updf_ne _ _ _ _ (by omega),
        updf_ne _ _ _ _ (by omega), updf_same]
    have b1 : updf (updf (updf (updf m.data a (v % 256)) (a + 1)
        (v / 2 ^ 8 % 256)) (a + 2) (v / 2 ^ 16 % 256)) (a + 3)
        (v / 2 ^ 24 % 256) (a + 1) = v / 2 ^ 8 % 256 := by
      rw [updf_ne _ _ _ _ (by omega), updf_ne _ _ _ _ (by omega), updf_same]
    have b2 : updf (updf (updf (updf m.data a (v % 256)) (a + 1)
        (v / 2 ^ 8 % 256)) (a + 2) (v / 2 ^ 16 % 256)) (a + 3)
        (v / 2 ^ 24 % 256) (a + 2) = v / 2 ^ 16 % 256 := by
      rw [updf_ne _ _ _ _ (by omega), updf_same]
    have b3 : updf (updf (updf (updf m.data a (v % 256)) (a + 1)
        (v / 2 ^ 8 % 256)) (a + 2) (v / 2 ^ 16 % 256)) (a + 3)
        (v / 2 ^ 24 % 256) (a + 3) = v / 2 ^ 24 % 256 := by
      rw [updf_same]
    show Except.ok
      (updf (updf (updf (updf m.data a (v % 256)) (a + 1) (v / 2 ^ 8 % 256)) (a + 2) (v / 2 ^ 16 % 256)) (a + 3) (v / 2 ^ 24 % 256) a |||
       updf (updf (updf (updf m.data a (v % 256)) (a + 1) (v / 2 ^ 8 % 256)) (a + 2) (v / 2 ^ 16 % 256)) (a + 3) (v / 2 ^ 24 % 256) (a + 1) <<< 8 |||
       updf (updf (updf (updf m.data a (v % 256)) (a + 1) (v / 2 ^ 8 % 256)) (a + 2) (v / 2 ^ 16 % 256)) (a + 3) (v / 2 ^ 24 % 256) (a + 2) <<< 16 |||
       updf (updf (updf (updf m.data a (v % 256)) (a + 1) (v / 2 ^ 8 % 256)) (a + 2) (v / 2 ^ 16 % 256)) (a + 3) (v / 2 ^ 24 % 256) (a + 3) <<< 24) = Except.ok v
    rw [b0, b1, b2, b3, word_assemble_le v hv]

/-- **C9.** For all in-bounds addresses `a` (`a + 3 < m.size`) and all 32-bit
values `v`, writing the word `v` at `a` and then reading the word at `a`
returns `v`, both directly against `Memory` (`Memory.write_word` then
`Memory.read_word`) and through the cache (`Cache.write_word` then
`Cache.read_word` on the resulting cache and memory), in little-endian byte
order in both cases.  The cache half assumes the well-formedness invariant
`CacheWF` (every valid dirty line's writeback block lies inside memory),
which holds of `Cache.new` and is preserved by the cache operations on a
fixed-size memory. -/
theorem write_read_word_roundtrip (c : Cache) (m : Memory) (a v : Nat)
    (ha : a + 3 < m.size) (hv : v < 2 ^ 32) (hwf : CacheWF c m) :
    (∃ m', m.write_word a v = .ok m' ∧ m'.read_word a = .ok v) ∧
    (∃ c₁ m₁ c₂ m₂, Cache.write_word c m a v = .ok (c₁, m₁) ∧
      Cache.read_word c₁ m₁ a = .ok (v, c₂, m₂)) := by
  refine ⟨memory_write_read_word m a v ha hv, ?_⟩
  have h32 : a % 32 ≤ 28 ∨ a % 32 = 29 ∨ a % 32 = 30 ∨ a % 32 = 31 := by omega
  rcases h32 with h | h | h | h
  · exact cache_wrw_case1 c m a v ha hv hwf h
  · exact cache_wrw_case2 c m a v ha hv hwf h
  · exact cache_wrw_case3 c m a v ha hv hwf h
  · exact cache_wrw_case4 c m a v ha hv hwf h

/-- Witness for **C9** at `a = 0`, `v = 0x12345678`, a fresh cache and a
64-byte memory. -/
theorem write_read_word_roundtrip_witness :
    0 + 3 < (Memory.with_size 64).size ∧ (0x12345678 : Nat) < 2 ^ 32 ∧
    CacheWF Cache.new (Memory.with_size 64) ∧
    ((∃ m', (Memory.with_size 64).write_word 0 0x12345678 = .ok m' ∧
        m'.read_word 0 = .ok 0x12345678) ∧
     (∃ c₁ m₁ c₂ m₂,
        Cache.write_word Cache.new (Memory.with_size 64) 0 0x12345678 = .ok (c₁, m₁) ∧
        Cache.read_word c₁ m₁ 0 = .ok (0x12345678, c₂, m₂))) := by
  have hwf : CacheWF Cache.new (Memory.with_size 64) := by
    intro si w _ hval _
    simp [Cache.new, CacheSet.new, CacheLine.new] at hval
  exact ⟨by decide, by decide, hwf,
    write_read_word_roundtrip Cache.new (Memory.with_size 64) 0 0x12345678
      (by decide) (by decide) hwf⟩

/-- **C8.** On a `write_byte` miss (no way in the addressed set holds the
tag), after victim selection and any dirty writeback, the allocated line is
marked valid and dirty with the new tag; among its 32 data bytes only the
byte at the addressed offset is set to the written value, and every other
byte keeps whatever the victim line's data array previously held — none of
them is reloaded from `Memory` (write-allocate without fill). -/
theorem write_miss_allocates_without_fill (c : Cache) (m : Memory) (a v : Nat)
    (hnone : c.lookup a = none)
    (hWB : (victimLine c a).valid = true → (victimLine c a).dirty = true →
      victimBase c a + 31 < m.size) :
    ∃ c' m', Cache.write_byte c m a v = .ok (c', m') ∧
      ((c'.sets (get_set_index a)).lines (victimWay c a)).valid = true ∧
      ((c'.sets (get_set_index a)).lines (victimWay c a)).dirty = true ∧
      ((c'.sets (get_set_index a)).lines (victimWay c a)).tag = get_tag a ∧
      ((c'.sets (get_set_index a)).lines (victimWay c a)).data (get_offset a)
        = v ∧
      (∀ j, j ≠ get_offset a →
        ((c'.sets (get_set_index a)).lines (victimWay c a)).data j
          = (victimLine c a).data j) := by
  obtain ⟨c', m', h1, _, _, _, hval, hdir, htag, hdata, _⟩ :=
    write_byte_miss c m a v hnone hWB
  refine ⟨c', m', h1, hval, hdir, htag, ?_, ?_⟩
  · rw [hdata]
    exact updf_same _ _ _
  · intro j hj
    rw [hdata]
    exact updf_ne _ _ _ _ hj

/-- Witness for **C8** at a fresh cache, a 64-byte memory, address 0 and
byte value 171. -/
theorem write_miss_allocates_without_fill_witness :
    Cache.new.lookup 0 = none ∧
    (∃ c' m', Cache.write_byte Cache.new (Memory.with_size 64) 0 171
        = .ok (c', m') ∧
      ((c'.sets (get_set_index 0)).lines (victimWay Cache.new 0)).valid = true ∧
      ((c'.sets (get_set_index 0)).lines (victimWay Cache.new 0)).dirty = true ∧
      ((c'.sets (get_set_index 0)).lines (victimWay Cache.new 0)).tag
        = get_tag 0 ∧
      ((c'.sets (get_set_index 0)).lines (victimWay Cache.new 0)).data
        (get_offset 0) = 171 ∧
      (∀ j, j ≠ get_offset 0 →
        ((c'.sets (get_set_index 0)).lines (victimWay Cache.new 0)).data j
          = (victimLine Cache.new 0).data j)) := by
  refine ⟨rfl, write_miss_allocates_without_fill Cache.new (Memory.with_size 64)
    0 171 rfl ?_⟩
  intro hval
  exact absurd hval (by decide)

/-- **C7.** On every cache miss the victim way is chosen by LRU: any
invalid way wins outright (first such way in order), otherwise the valid
way with the smallest access timestamp, ties broken by lowest way index;
the victim's writeback base address is `(tag*64+setIndex)*32`; on a miss
whose victim is valid and dirty, `read_byte` (resp. `write_byte`)
increments the miss and writeback counters and writes the victim's full
32-byte block back to memory at that base address.  Consequently, reading
5 distinct lines that map to the same set on a fresh cache gives 5 misses,
re-accessing the first (evicted) line is again a miss, while re-accessing
the other three gives 3 hits. -/
theorem lru_victim_and_writeback (c : Cache) (m : Memory) (a : Nat) :
    ((∃ w, w < 4 ∧ ((c.sets (get_set_index a)).lines w).valid = false) →
      ((c.sets (get_set_index a)).lines (victimWay c a)).valid = false ∧
      ∀ w', w' < victimWay c a →
        ((c.sets (get_set_index a)).lines w').valid = true) ∧
    ((∀ w, w < 4 → ((c.sets (get_set_index a)).lines w).valid = true) →
      (∀ w, w < 4 → (victimLine c a).access_time
        ≤ ((c.sets (get_set_index a)).lines w).access_time) ∧
      (∀ w, w < 4 → ((c.sets (get_set_index a)).lines w).access_time
        = (victimLine c a).access_time → victimWay c a ≤ w)) ∧
    victimBase c a = ((victimLine c a).tag * 64 + get_set_index a) * 32 ∧
    (c.lookup a = none → (victimLine c a).valid = true →
     (victimLine c a).dirty = true → victimBase c a + 31 < m.size →
     a / 32 * 32 + 31 < m.size →
      ∃ c' m', Cache.read_byte c m a = .ok (m'.data a, c', m') ∧
        c'.stats.misses = c.stats.misses + 1 ∧
        c'.stats.writebacks = c.stats.writebacks + 1 ∧
        m'.size = m.size ∧
        (∀ x, victimBase c a ≤ x → x < victimBase c a + 32 →
          m'.data x = (victimLine c a).data (x - victimBase c a) % 256)) ∧
    (c.lookup a = none → (victimLine c a).valid = true →
     (victimLine c a).dirty = true → victimBase c a + 31 < m.size →
     ∀ v, ∃ c' m', Cache.write_byte c m a v = .ok (c', m') ∧
        c'.stats.misses = c.stats.misses + 1 ∧
        c'.stats.writebacks = c.stats.writebacks + 1 ∧
        m'.size = m.size ∧
        (∀ x, victimBase c a ≤ x → x < victimBase c a + 32 →
          m'.data x = (victimLine c a).data (x - victimBase c a) % 256)) ∧
    hitsMissesAfter [0, 2048, 4096, 6144, 8192] = some (0, 5) ∧
    hitsMissesAfter [0, 2048, 4096, 6144, 8192, 0] = some (0, 6) ∧
    hitsMissesAfter [0, 2048, 4096, 6144, 8192, 2048, 4096, 6144]
      = some (3, 5) := by
  refine ⟨?_, ?_, rfl, ?_, ?_, by decide, by decide, by decide⟩
  · intro hinv
    unfold victimWay
    rw [select_lru_eq_ref]
    exact selectLruRef_invalid c (get_set_index a) hinv
  · intro hall
    unfold victimLine victimWay
    rw [select_lru_eq_ref]
    exact selectLruRef_lru c (get_set_index a) hall
  · intro hnone hval hdirty hwb hload
    obtain ⟨c', m', h1, hsz, hq3, hq4, hq5, hq6, hq7, hq8, hq9, hmiss, hq11, hq12, hdc⟩ :=
      read_byte_miss c m a hnone (fun _ _ => hwb) hload
    obtain ⟨hwbk, hmem⟩ := hdc ⟨hval, hdirty⟩
    refine ⟨c', m', h1, hmiss, hwbk, hsz, fun x hx1 hx2 => ?_⟩
    rw [hmem x, if_pos ⟨hx1, hx2⟩]
  · intro hnone hval hdirty hwb v
    obtain ⟨c', m', h1, hsz, hq3, hq4, hq5, hq6, hq7, hq8, hq9, hmiss, hq11, hq12, hdc⟩ :=
      write_byte_miss c m a v hnone (fun _ _ => hwb)
    obtain ⟨hwbk, hmem⟩ := hdc ⟨hval, hdirty⟩
    refine ⟨c', m', h1, hmiss, hwbk, hsz, fun x hx1 hx2 => ?_⟩
    rw [hmem x, if_pos ⟨hx1, hx2⟩]

/-- Witness for **C7**: at `dirtyCache` (set 0 fully valid, way 0 LRU and
dirty, tags 10/20/30/40) and address 8192 (set 0, tag 4), the miss
hypotheses hold concretely and the dirty victim is written back. -/
theorem lru_victim_and_writeback_witness :
    Cache.lookup dirtyCache 8192 = none ∧
    (victimLine dirtyCache 8192).valid = true ∧
    (victimLine dirtyCache 8192).dirty = true ∧
    victimBase dirtyCache 8192 + 31 < (Memory.with_size 32768).size ∧
    8192 / 32 * 32 + 31 < (Memory.with_size 32768).size ∧
    (∃ c' m', Cache.read_byte dirtyCache (Memory.with_size 32768) 8192
        = .ok (m'.data 8192, c', m') ∧
      c'.stats.misses = dirtyCache.stats.misses + 1 ∧
      c'.stats.writebacks = dirtyCache.stats.writebacks + 1 ∧
      m'.size = (Memory.with_size 32768).size ∧
      (∀ x, victimBase dirtyCache 8192 ≤ x →
        x < victimBase dirtyCache 8192 + 32 →
        m'.data x = (victimLine dirtyCache 8192).data
          (x - victimBase dirtyCache 8192) % 256)) := by
  refine ⟨by decide, by decide, by decide, by decide, by decide, ?_⟩
  exact (lru_victim_and_writeback dirtyCache (Memory.with_size 32768)
    8192).2.2.2.1 (by decide) (by decide) (by decide) (by decide) (by decide)

theorem cacheGood_new (m : Memory) : CacheGood Cache.new m := by
  intro si w _
  exact ⟨rfl, fun hv => (Bool.false_ne_true hv).elim⟩

theorem cacheGood_of_sameLines (c c' : Cache) (m : Memory)
    (h : SameLines c c') (hg : CacheGood c m) : CacheGood c' m := by
  intro si w hw
  obtain ⟨hval, htag, hdirty, hdata⟩ := h si w
  obtain ⟨h1, h2⟩ := hg si w hw
  refine ⟨by rw [hdirty, h1], fun hv j hj => ?_⟩
  rw [hval] at hv
  rw [hdata, htag]
  exact h2 hv j hj

theorem read_byte_good (c : Cache) (m : Memory) (a : Nat)
    (hg : CacheGood c m) (hload : a / 32 * 32 + 31 < m.size) :
    ∃ c', Cache.read_byte c m a = .ok (m.data a, c', m) ∧ CacheGood c' m := by
  cases hw : c.lookup a with
  | some w =>
    have hw' := hw
    unfold Cache.lookup at hw'
    have hfs := findWay_some _ _ _ w hw'
    have hw4 : w < 4 := by
      have hmem := hfs.1
      simp [List.mem_cons] at hmem
      omega
    obtain ⟨h1, h2, _, _, _, _⟩ := read_byte_hit c m a w hw
    have hoff : get_offset a < 32 := by
      unfold get_offset
      omega
    have hvv : ((c.sets (get_set_index a)).lines w).data (get_offset a)
        = m.data a := by
      rw [(hg (get_set_index a) w hw4).2 hfs.2.1 (get_offset a) hoff,
        hfs.2.2, line_base_offset]
    rw [hvv] at h1
    exact ⟨_, h1, cacheGood_of_sameLines c _ m h2 hg⟩
  | none =>
    have hw4 : victimWay c a < 4 := select_lru_lt4 c _
    have hdirty : (victimLine c a).dirty = false :=
      (hg (get_set_index a) (victimWay c a) hw4).1
    obtain ⟨c', m', h1, hsz, hsets, hlines, hval', hdf, htag, hdata, hcb,
        hmiss2, hhits, hclean, hdc⟩ :=
      read_byte_miss c m a hw (fun _ hd => absurd (hdirty ▸ hd) (by decide))
        hload
    obtain ⟨hm, _⟩ := hclean (by
      rintro ⟨-, hd⟩
      rw [hdirty] at hd
      exact absurd hd (by decide))
    subst hm
    refine ⟨c', h1, ?_⟩
    intro si' w' hw'
    by_cases hsi : si' = get_set_index a
    · subst hsi
      by_cases hww : w' = victimWay c a
      · subst hww
        refine ⟨hdf, fun _ j hj => ?_⟩
        rw [hdata j hj, htag]
        have hb : (get_tag a * 64 + get_set_index a) * 32 = a / 32 * 32 := by
          unfold get_tag get_set_index
          omega
        rw [hb]
      · rw [hlines w' hww]
        exact hg (get_set_index a) w' hw'
    · rw [hsets si' hsi]
      exact hg si' w' hw'

theorem read_word_good (c : Cache) (m : Memory) (a : Nat)
    (hg : CacheGood c m) (ha : a + 3 < m.size)
    (hblk : a / 32 * 32 + 63 < m.size) :
    ∃ c', Cache.read_word c m a
        = .ok ((m.data (a + 3) <<< 24) ||| (m.data (a + 2) <<< 16) |||
          (m.data (a + 1) <<< 8) ||| m.data a, c', m) ∧
      CacheGood c' m := by
  obtain ⟨c₀, he0, hg0⟩ := read_byte_good c m a hg (by omega)
  obtain ⟨c₁, he1, hg1⟩ := read_byte_good c₀ m (a + 1) hg0 (by omega)
  obtain ⟨c₂, he2, hg2⟩ := read_byte_good c₁ m (a + 2) hg1 (by omega)
  obtain ⟨c₃, he3, hg3⟩ := read_byte_good c₂ m (a + 3) hg2 (by omega)
  refine ⟨c₃, ?_, hg3⟩
  unfold Cache.read_word
  rw [if_neg (by omega)]
  simp only [he0, he1, he2, he3]

theorem exec_beq00 (p : Processor) :
    p.execute_instruction 0x10000000 = .ok (true, { p with
      pc := (p.pc + u32ofInt ((0 : Int) * 4)) % 2 ^ 32,
      stats := { p.stats with
        branches_taken := p.stats.branches_taken + 1 } }) := by
  have hd : InstructionType.decode 0x10000000 = .Beq 0 0 0 := by decide
  have hc : p.get_register 0 = p.get_register 0 := rfl
  unfold Processor.execute_instruction
  rw [hd]
  simp only [hc, if_pos]

theorem step_stuck (p : Processor) (h : StuckInv p) :
    ∃ p', p.step = .ok (true, p') ∧ StuckInv p' := by
  obtain ⟨hpc, hsz, hd0, hd1, hd2, hd3, hg⟩ := h
  obtain ⟨c', hrw, hg'⟩ := read_word_good p.cache p.memory 0x00400000 hg
    (by omega) (by omega)
  have hval : (p.memory.data (0x00400000 + 3) <<< 24) |||
      (p.memory.data (0x00400000 + 2) <<< 16) |||
      (p.memory.data (0x00400000 + 1) <<< 8) ||| p.memory.data 0x00400000
      = 0x10000000 := by
    have e3 : (0x00400000 + 3 : Nat) = 0x00400003 := by norm_num
    have e2 : (0x00400000 + 2 : Nat) = 0x00400002 := by norm_num
    have e1 : (0x00400000 + 1 : Nat) = 0x00400001 := by norm_num
    rw [e3, e2, e1, hd0, hd1, hd2, hd3]
    decide
  rw [hval] at hrw
  have hfetch : p.fetch_instruction
      = .ok (0x10000000, { p with cache := c', memory := p.memory }) := by
    unfold Processor.fetch_instruction
    rw [hpc, hrw]
  have hexec := exec_beq00 { p with cache := c', memory := p.memory }
  refine ⟨{ p with
    cache := c', pc := (p.pc + u32ofInt ((0 : Int) * 4)) % 2 ^ 32, stats := { p.stats with branches_taken := p.stats.branches_taken + 1 } }, ?_, ?_⟩
  · unfold Processor.step
    simp only [hfetch, hexec]
    rfl
  · refine ⟨?_, hsz, hd0, hd1, hd2, hd3, hg'⟩
    show (p.pc + u32ofInt ((0 : Int) * 4)) % 2 ^ 32 = 0x00400000
    rw [hpc]
    decide

theorem runLoop_succ (fuel : Nat) (p : Processor) (count : Nat) :
    runLoop (fuel + 1) p count =
      if p.pc = 0xFFFFFFFF then some (.ok ())
      else
        match p.step with
        | .error e => some (.error e)
        | .ok (true, p') => runLoop fuel p' count
        | .ok (false, p') =>
          if p'.registers 2 = 10 then some (.ok ())
          else
            if count + 1 > 100000 then some (.ok ())
            else runLoop fuel p' (count + 1) := rfl

theorem runLoop_stuck (fuel : Nat) :
    ∀ p count, StuckInv p → runLoop fuel p count = none := by
  induction fuel with
  | zero =>
    intro p count _
    rfl
  | succ n ih =>
    intro p count h
    obtain ⟨p', hstep, h'⟩ := step_stuck p h
    rw [runLoop_succ, if_neg (by rw [h.1]; decide), hstep]
    exact ih p' count h'

theorem stuckInv_pBeq : StuckInv pBeq := by
  refine ⟨by decide, by decide, by decide, by decide, by decide, by decide,
    ?_⟩
  have hc : pBeq.cache = Cache.new := rfl
  rw [hc]
  exact cacheGood_new pBeq.memory

/-- **C4.** (code bug) The claim says `run()` stops with a warning once the
100,000-instruction safety bound is reached, and in particular terminates
on every input program.  The code's `continue` on a taken branch skips the
instruction-count increment, so for the program consisting of the single
self-branch `beq $0, $0, 0` (word `0x10000000`) the count never grows and
no exit condition is ever met: for every fuel and every starting count the
loop model is still running (`none`), i.e. the source's unfueled loop never
terminates. -/
theorem run_never_reaches_bound_on_taken_branches :
    ∀ fuel count, runLoop fuel pBeq count = none := by
  intro fuel count
  exact runLoop_stuck fuel pBeq count stuckInv_pBeq
